import Mathlib

/-!
Shallow embedding of the ledger system's reporting / filtering / money core
(`src/app/main.py`, `src/app/models.py`), together with spec-side
characterizations and theorems settling the frozen claims.

Conventions:
* Python `int` is `ℤ` / `ℕ`; money amounts are integer cents (`ℤ`).
* `decimal.Decimal` values are modelled in sign-magnitude form
  (sign, coefficient `ℕ`, base-10 exponent `ℤ`), with the default context
  (precision 28, `ROUND_HALF_EVEN`) applied where the Python runtime does.
* Fallible code returns `Except`/`Option`; an exception that the Python code
  does not catch is an explicit error value.
* All definitions are executable; recursions that the kernel must evaluate on
  concrete inputs are written with explicit fuel (structural recursion).
-/

namespace Ledger

/-- Round-half-even ("banker's") division on naturals: the nearest integer to
`a / b`, ties going to the even quotient. Junk (`a / 0`-style) at `b = 0`;
all uses have `0 < b`. This models both Python decimal `ROUND_HALF_EVEN`
steps and IEEE-754 round-to-nearest-even. -/
def rheND (a b : ℕ) : ℕ :=
  let q := a / b
  let r := a % b
  if 2 * r < b then q
  else if b < 2 * r then q + 1
  else if q % 2 = 0 then q else q + 1

/-- Fuelled decimal digit counter (`0` has one digit), fuel-adequate when
`n < fuel`. -/
def digLenAux : ℕ → ℕ → ℕ
  | 0, _ => 0
  | f + 1, n => if n ≤ 9 then 1 else digLenAux f (n / 10) + 1

/-- Number of decimal digits of `n` (`1` for `n = 0`): the length of a Python
decimal coefficient. -/
def digLen (n : ℕ) : ℕ := digLenAux (n + 1) n

/-- Fuelled floor base-2 logarithm, fuel-adequate when `n ≤ fuel`. -/
def nlog2Aux : ℕ → ℕ → ℕ
  | 0, _ => 0
  | f + 1, n => if n ≤ 1 then 0 else nlog2Aux f (n / 2) + 1

/-- Floor of the base-2 logarithm of `n` (junk at `n = 0`). -/
def nlog2 (n : ℕ) : ℕ := nlog2Aux n n

/-- Decide `2 ^ k ≤ a / b` for naturals `a b ≥ 1` and `k : ℤ`, by clearing
denominators. -/
def pow2LeFrac (k : ℤ) (a b : ℕ) : Bool :=
  match k with
  | .ofNat n => decide (b * 2 ^ n ≤ a)
  | .negSucc n => decide (b ≤ a * 2 ^ (n + 1))

/-- Floor of the base-2 logarithm of the positive rational `a / b`. -/
def ilog2Frac (a b : ℕ) : ℤ :=
  let k0 : ℤ := (nlog2 a : ℤ) - (nlog2 b : ℤ)
  if pow2LeFrac k0 a b then k0 else k0 - 1

/-- ASCII digit test. -/
def isDigitC (c : Char) : Bool := decide (48 ≤ c.toNat ∧ c.toNat ≤ 57)

/-- Value of an ASCII digit character. -/
def digitVal (c : Char) : ℕ := c.toNat - 48

/-- The ASCII character of a decimal digit. -/
def digitChar (d : ℕ) : Char := Char.ofNat (48 + d)

/-- Value of a most-significant-first decimal digit string. -/
def digitsVal (cs : List Char) : ℕ := cs.foldl (fun a c => 10 * a + digitVal c) 0

/-- Fuelled rendering of a natural in decimal, most significant digit first,
prepended to `acc`; fuel-adequate when `n < fuel`. -/
def natToDigitsAux : ℕ → ℕ → List Char → List Char
  | 0, _, acc => acc
  | f + 1, n, acc =>
      if n ≤ 9 then digitChar n :: acc
      else natToDigitsAux f (n / 10) (digitChar (n % 10) :: acc)

/-- Decimal digit string of a natural number (no sign, no padding). -/
def natToDigits (n : ℕ) : List Char := natToDigitsAux (n + 1) n []

/-- ASCII lowercase conversion of one character (matches SQLite `lower()`,
which only folds A-Z; Python `str.lower()` agrees on ASCII input). -/
def asciiLower (c : Char) : Char :=
  if 65 ≤ c.toNat ∧ c.toNat ≤ 90 then Char.ofNat (c.toNat + 32) else c

/-- ASCII whitespace test, as stripped by Python `str.strip()` (the non-ASCII
whitespace Python also strips is outside the modelled character range). -/
def isSpaceC (c : Char) : Bool := decide (c.toNat = 32 ∨ (9 ≤ c.toNat ∧ c.toNat ≤ 13))

/-- Strip leading and trailing whitespace. -/
def stripSpaces (cs : List Char) : List Char :=
  ((cs.dropWhile isSpaceC).reverse.dropWhile isSpaceC).reverse

/-- Split a list at the first character satisfying `p`: returns the part
before it and, when found, the part after it. -/
def splitOnce (p : Char → Bool) : List Char → List Char × Option (List Char)
  | [] => ([], none)
  | c :: r =>
    if p c then ([], some r)
    else
      let (a, b) := splitOnce p r
      (c :: a, b)

/-- Result of parsing a string as a Python `decimal.Decimal`: a finite
sign-magnitude value `(-1)^neg * coeff * 10^exp`, an infinity, a quiet NaN,
or a signalling NaN. `none` means the constructor raises (caught by
`parse_amount_to_cents` and turned into `ValueError("Invalid amount")`). -/
inductive DecParsed where
  | finite (neg : Bool) (coeff : ℕ) (exp : ℤ)
  | inf (neg : Bool)
  | nan
  | snan
deriving DecidableEq

/-- Body check for `NaN` diagnostics: `nan` followed by digits only
(case already lowered). -/
def isNanBody (cs : List Char) : Bool :=
  match cs with
  | c1 :: c2 :: c3 :: ds => c1 = 'n' && c2 = 'a' && c3 = 'n' && ds.all isDigitC
  | _ => false

/-- Body check for `sNaN` (case already lowered). -/
def isSNanBody (cs : List Char) : Bool :=
  match cs with
  | c1 :: c2 :: c3 :: c4 :: ds =>
    c1 = 's' && c2 = 'n' && c3 = 'a' && c4 = 'n' && ds.all isDigitC
  | _ => false

/-- Parse the numeric (finite) mantissa-exponent body of a decimal literal:
digits with an optional single point, then an optional `e`/`E` exponent with
optional sign and at least one digit. Returns the coefficient and the
adjusted exponent. -/
def parseNumeric (cs : List Char) : Option (ℕ × ℤ) :=
  let (mant, expPart) := splitOnce (fun c => c == 'e' || c == 'E') cs
  let expVal : Option ℤ :=
    match expPart with
    | none => some 0
    | some ep =>
      let (eneg, ed) :=
        match ep with
        | '-' :: r => (true, r)
        | '+' :: r => (false, r)
        | r => (false, r)
      if ed ≠ [] ∧ ed.all isDigitC then
        some (if eneg then -(digitsVal ed : ℤ) else (digitsVal ed : ℤ))
      else none
  match expVal with
  | none => none
  | some ev =>
    let (ip, fpOpt) := splitOnce (fun c => c == '.') mant
    let fp := fpOpt.getD []
    if fp.any (fun c => c == '.') then none
    else if ip.all isDigitC ∧ fp.all isDigitC ∧ (ip ≠ [] ∨ fp ≠ []) then
      some (digitsVal (ip ++ fp), ev - fp.length)
    else none

/-- Core of the `Decimal` constructor's grammar, applied to the cleaned
character list: optional sign, then either a numeric literal or one of the
special forms `inf`/`infinity`/`nan`/`snan` (case-insensitive, NaN with
optional digit diagnostics). -/
def parseDecCore (cs : List Char) : Option DecParsed :=
  let signRest :=
    match cs with
    | [] => (false, ([] : List Char))
    | c0 :: r =>
      if c0 = '-' then (true, r)
      else if c0 = '+' then (false, r)
      else (false, c0 :: r)
  let neg := signRest.1
  let rest := signRest.2
  let low := rest.map asciiLower
  if low = ['i', 'n', 'f'] ∨ low = ['i', 'n', 'f', 'i', 'n', 'i', 't', 'y'] then
    some (.inf neg)
  else if isNanBody low then some .nan
  else if isSNanBody low then some .snan
  else
    match parseNumeric rest with
    | some (c, e) => some (.finite neg c e)
    | none => none

/-- Parse a string exactly as the `decimal.Decimal` constructor does:
strip surrounding whitespace, drop underscore separators, then the signed
grammar of `parseDecCore`. -/
def parseDec (s : String) : Option DecParsed :=
  parseDecCore (stripSpaces (s.toList.filter (fun c => c != '_')))

/-- Errors observable from `parse_amount_to_cents`: `invalidAmount` is a
`ValueError` (either the constructor failure re-raised as
`ValueError("Invalid amount")`, or `int(Decimal("NaN"))`, which raises
`ValueError` after `quantize` propagates the quiet NaN); `uncaught` is a
`decimal.InvalidOperation` (or `Overflow`) escaping the function, since the
`except` clause only catches the constructor's errors. -/
inductive AmountError where
  | invalidAmount
  | uncaught
deriving DecidableEq

/-- Apply a decimal sign to a magnitude. -/
def signApply (neg : Bool) (n : ℕ) : ℤ := if neg then -(n : ℤ) else n

/-- Default-context rounding of a product coefficient to 28 significant
digits (`ROUND_HALF_EVEN`), as Python decimal multiplication performs it:
drop `digLen c - 28` digits rounding half-even, renormalizing when the
rounded coefficient carries to 29 digits. -/
def ctxRound28 (c : ℕ) (e : ℤ) : ℕ × ℤ :=
  let L := digLen c
  if L ≤ 28 then (c, e)
  else
    let k := L - 28
    let r := rheND c (10 ^ k)
    if digLen r ≤ 28 then (r, e + k) else (r / 10, e + k + 1)

/-- Model of `(value).quantize(Decimal("1"))` followed by `int(...)` under the
default context: round the finite value `(-1)^neg * c * 10^e` half-even to an
integer; fail (`InvalidOperation`) when the resulting coefficient would
exceed 28 digits. Exponents so negative that the value rounds to zero are
short-circuited (the rounded result is exactly 0 there, and the guard keeps
the definition kernel-evaluable for astronomically negative exponents). -/
def quantizeToCents (neg : Bool) (c : ℕ) (e : ℤ) : Except AmountError ℤ :=
  if c = 0 then .ok 0
  else
    match e with
    | .ofNat k =>
      if digLen c + k ≤ 28 then .ok (signApply neg (c * 10 ^ k)) else .error .uncaught
    | .negSucc m =>
      let k := m + 1
      if digLen c < k then .ok 0
      else
        let n := rheND c (10 ^ k)
        if digLen n ≤ 28 then .ok (signApply neg n) else .error .uncaught

/-- `parse_amount_to_cents` (main.py lines 56-61): `Decimal(amount_str)`
with `InvalidOperation`/`TypeError` converted to `ValueError("Invalid
amount")`, then `int((value * 100).quantize(Decimal("1")))` with any error
propagating uncaught. The multiplication by 100 happens under the default
context (precision 28, `ROUND_HALF_EVEN`); quiet NaN flows through
`quantize` and makes `int` raise `ValueError`; infinities and signalling
NaN raise `InvalidOperation`. -/
def parse_amount_to_cents (s : String) : Except AmountError ℤ :=
  match parseDec s with
  | none => .error .invalidAmount
  | some .nan => .error .invalidAmount
  | some .snan => .error .uncaught
  | some (.inf _) => .error .uncaught
  | some (.finite neg c e) =>
    let ce := ctxRound28 (c * 100) e
    quantizeToCents neg ce.1 ce.2

/-- Two-digit zero-padded rendering of `n < 100`. -/
def pad2 (n : ℕ) : List Char := if n ≤ 9 then '0' :: natToDigits n else natToDigits n

/-- Fixed two-decimal rendering of an integer number of cents, as `%.2f`
formats the exact value `n / 100`: sign, integer part, point, two digits. -/
def renderFixed2 (n : ℤ) : List Char :=
  (if n < 0 then ['-'] else []) ++ natToDigits (n.natAbs / 100) ++ '.' :: pad2 (n.natAbs % 100)

/-- IEEE-754 binary64 value nearest to `a / 100` (for `a ≥ 1`), as the pair
`(m, s)` with the double equal to `m / 2 ^ s` and `2^52 ≤ m ≤ 2^53`:
CPython's `int / int` true division is correctly rounded (round to nearest,
ties to even). Exponent range is unbounded here; the model agrees with
binary64 for all normal, non-overflowing magnitudes, which covers every
value this development evaluates. -/
def floatCentsMantissa (a : ℕ) : ℕ × ℤ :=
  let k := ilog2Frac a 100
  let s := 52 - k
  let m := rheND (a * 2 ^ s.toNat) (100 * 2 ^ (-s).toNat)
  (m, s)

/-- `cents_to_display` (main.py lines 64-65): Python computes the binary64
float `cents / 100` and formats it with `%.2f`, which renders the decimal
string nearest to that float (ties to even; no tie can occur since
`x.xx5` values are not binary64-representable). Modelled by rounding
`|cents| / 100` to a binary64 value `m / 2 ^ s` and then rounding
`100 * m / 2 ^ s` half-even back to an integer number of cents to render. -/
def cents_to_display (c : ℤ) : String :=
  if c = 0 then "0.00"
  else
    let a := c.natAbs
    let ms := floatCentsMantissa a
    let m := ms.1
    let s := ms.2
    let n : ℕ := if s ≤ 0 then m * 100 * 2 ^ (-s).toNat else rheND (m * 100) (2 ^ s.toNat)
    String.mk (renderFixed2 (if c < 0 then -(n : ℤ) else (n : ℤ)))

/-- Decidable equality for `Except`, needed to evaluate results by `decide`. -/
instance exceptDecEq {ε α : Type} [DecidableEq ε] [DecidableEq α] :
    DecidableEq (Except ε α) := fun x y =>
  match x, y with
  | .ok a, .ok b =>
    if h : a = b then .isTrue (by rw [h]) else .isFalse (fun he => h (Except.ok.inj he))
  | .error a, .error b =>
    if h : a = b then .isTrue (by rw [h]) else .isFalse (fun he => h (Except.error.inj he))
  | .ok _, .error _ => .isFalse (fun he => Except.noConfusion he)
  | .error _, .ok _ => .isFalse (fun he => Except.noConfusion he)

/-- A calendar date (`datetime.date`): year, month, day. -/
structure Date where
  year : ℕ
  month : ℕ
  day : ℕ
deriving DecidableEq

/-- Date comparison `a <= b` (lexicographic on year, month, day — the order of
valid calendar dates). -/
def dateLe (a b : Date) : Bool :=
  decide (a.year < b.year ∨ (a.year = b.year ∧
    (a.month < b.month ∨ (a.month = b.month ∧ a.day ≤ b.day))))

/-- Strict date comparison `a < b`. -/
def dateLt (a b : Date) : Bool :=
  decide (a.year < b.year ∨ (a.year = b.year ∧
    (a.month < b.month ∨ (a.month = b.month ∧ a.day < b.day))))

/-- Length of a month, with the Gregorian leap rule (as `datetime` validates). -/
def daysInMonth (y m : ℕ) : ℕ :=
  if m = 2 then
    if (y % 4 = 0 ∧ y % 100 ≠ 0) ∨ y % 400 = 0 then 29 else 28
  else if m = 4 ∨ m = 6 ∨ m = 9 ∨ m = 11 then 30
  else 31

/-- Split a character list on every dash. -/
def splitDash : List Char → List (List Char)
  | [] => [[]]
  | c :: r =>
    if c = '-' then [] :: splitDash r
    else
      match splitDash r with
      | [] => [[c]]
      | g :: gs => (c :: g) :: gs

/-- Month field shape per `strptime` `%m`: one or two digits, value 1-12. -/
def monthShape (p : List Char) : Bool :=
  p.all isDigitC && decide ((p.length = 1 ∨ p.length = 2) ∧ 1 ≤ digitsVal p ∧ digitsVal p ≤ 12)

/-- Day field shape per `strptime` `%d`: one or two digits, value 1-31. -/
def dayShape (p : List Char) : Bool :=
  p.all isDigitC && decide ((p.length = 1 ∨ p.length = 2) ∧ 1 ≤ digitsVal p ∧ digitsVal p ≤ 31)

/-- `datetime.strptime(s, "%Y-%m-%d").date()` as a total function: `%Y` is
exactly four digits, `%m`/`%d` are one or two digits in range, the full
string must match, and the `date` constructor validates the calendar day
and rejects year 0. `none` is the `ValueError` outcome. -/
def parseDate (s : String) : Option Date :=
  match splitDash s.toList with
  | [yp, mp, dp] =>
    if yp.length = 4 ∧ yp.all isDigitC = true ∧ monthShape mp = true ∧ dayShape dp = true then
      let y := digitsVal yp
      let m := digitsVal mp
      let d := digitsVal dp
      if 1 ≤ y ∧ d ≤ daysInMonth y m then some ⟨y, m, d⟩ else none
    else none
  | _ => none

/-- Left-pad a digit string with zeros to width `w`. -/
def padZeros (w : ℕ) (ds : List Char) : List Char :=
  List.replicate (w - ds.length) '0' ++ ds

/-- `date.isoformat()`: `YYYY-MM-DD`, zero-padded. -/
def dateIso (d : Date) : String :=
  String.mk (padZeros 4 (natToDigits d.year) ++ '-' ::
    (padZeros 2 (natToDigits d.month) ++ '-' :: padZeros 2 (natToDigits d.day)))

/-- Stable insertion into a sorted list: `below a b` means `a` must be placed
strictly below (after) `b`; on ties the inserted element goes first, which
(together with `sortBy` processing from the right) makes the sort stable. -/
def insertStable {α : Type} (below : α → α → Bool) (a : α) : List α → List α
  | [] => [a]
  | b :: l => if below a b then b :: insertStable below a l else a :: b :: l

/-- Stable insertion sort. -/
def sortBy {α : Type} (below : α → α → Bool) : List α → List α
  | [] => []
  | a :: l => insertStable below a (sortBy below l)

/-- Fuelled SQL `LIKE` matcher: `%` matches any sequence, `_` any single
character, all other pattern characters literally (no escape clause, as in
the generated SQL). Each step shrinks `p.length + s.length`, so fuel
`p.length + s.length + 1` is adequate. -/
def likeMatchF : ℕ → List Char → List Char → Bool
  | 0, _, _ => false
  | _ + 1, [], s => s.isEmpty
  | f + 1, a :: pr, [] => if a = '%' then likeMatchF f pr [] else false
  | f + 1, a :: pr, c :: sr =>
    if a = '%' then likeMatchF f pr (c :: sr) || likeMatchF f (a :: pr) sr
    else (decide (a = '_') || a == c) && likeMatchF f pr sr

/-- SQL `LIKE` pattern matching. -/
def likeMatch (p s : List Char) : Bool := likeMatchF (p.length + s.length + 1) p s

/-- Does `k` occur at the very start of `s`? -/
def leadsWith : List Char → List Char → Bool
  | [], _ => true
  | _ :: _, [] => false
  | a :: k, c :: s => a == c && leadsWith k s

/-- Does `k` occur contiguously anywhere inside `s`? (The spec's notion of a
substring match.) -/
def occursIn (k : List Char) : List Char → Bool
  | [] => leadsWith k []
  | c :: sr => leadsWith k (c :: sr) || occursIn k sr

/-- Characters that are plain text for `LIKE` (neither `%` nor `_`). -/
def noMeta (k : List Char) : Bool := k.all (fun c => c != '%' && c != '_')

/-- A user row (models.py `User`; fields not read by the modelled logic —
email, password hash, status, timestamps — are omitted). -/
structure UserRec where
  id : ℕ
  org_id : ℕ
  name : String
  role : String
deriving DecidableEq

/-- A transaction row (models.py `Transaction`). The autoincrement primary
key and the timestamps are never read by the modelled logic and are omitted.
`note`/`tags` are nullable text. -/
structure Txn where
  org_id : ℕ
  user_id : ℕ
  account_id : ℕ
  category_id : ℕ
  amount_cents : ℤ
  type : String
  occurred_at : Date
  note : Option String
  tags : Option String
deriving DecidableEq

/-- A category row (models.py `Category`). -/
structure CategoryRec where
  id : ℕ
  org_id : ℕ
  name : String
  type : String
deriving DecidableEq

/-- An account row (models.py `Account`). -/
structure AccountRec where
  id : ℕ
  org_id : ℕ
  name : String
deriving DecidableEq

/-- A budget row (models.py `Budget`). -/
structure BudgetRec where
  id : ℕ
  org_id : ℕ
  name : String
  period : String
  category_id : Option ℕ
  amount_cents : ℤ
  start_date : Date
  end_date : Date
deriving DecidableEq

/-- A database snapshot: the relational store the queries read. -/
structure Db where
  users : List UserRec
  categories : List CategoryRec
  accounts : List AccountRec
  transactions : List Txn
  budgets : List BudgetRec
deriving DecidableEq

/-- Query-string parameters of the listing/export requests. `category_id` and
`account_id` are taken as already-bound integers: spec section 7 declares
non-numeric text in these two parameters out of this core's scope (the
Python code would raise on `int(...)`), and a present parameter is a
non-empty string, so presence is modelled by `some`. -/
structure QueryParams where
  start_date : Option String
  end_date : Option String
  category_id : Option ℕ
  account_id : Option ℕ
  min_amount : Option String
  max_amount : Option String
  q : Option String
deriving DecidableEq

/-- The all-absent parameter set. -/
def QueryParams.none : QueryParams :=
  ⟨Option.none, Option.none, Option.none, Option.none, Option.none, Option.none, Option.none⟩

/-- Python truthiness of an optional string parameter: present and non-empty. -/
def presentStr : Option String → Option String
  | some s => if s = "" then Option.none else some s
  | Option.none => Option.none

/-- Role-based scoping of the transaction query (main.py lines 98-100,
245-247, 527-529, 630-632): always restricted to the acting user's
organization; additionally restricted to the acting user's own rows when the
role is exactly the string `user`. -/
def scopeTxns (txns : List Txn) (u : UserRec) : List Txn :=
  let q := txns.filter (fun t => t.org_id == u.org_id)
  if u.role == "user" then q.filter (fun t => t.user_id == u.id) else q

/-- `require_role` (main.py lines 51-53): `PermissionDenied` (an HTTP 403)
exactly when the role is not in the allowed set. -/
inductive PermError where
  | permissionDenied
deriving DecidableEq

def require_role (u : UserRec) (allowed : List String) : Except PermError Unit :=
  if allowed.contains u.role then .ok () else .error .permissionDenied

/-- The keyword predicate of the listing and the export (main.py lines
280-286, 650-656): SQL
`lower(coalesce(note, '')) LIKE '%kw.lower()%' OR` the same on `tags`.
The keyword is lowercased in Python, the columns by SQLite `lower()`; both
are ASCII folds here (they agree on ASCII; SQLite does not fold non-ASCII). -/
def keywordPred (kw : String) (t : Txn) : Bool :=
  let pat := '%' :: ((kw.toList.map asciiLower) ++ ['%'])
  likeMatch pat ((t.note.getD "").toList.map asciiLower) ||
    likeMatch pat ((t.tags.getD "").toList.map asciiLower)

/-- Date parameter handling of the listing and export (main.py lines
252-261, 634-645): a missing or empty parameter, or one `strptime` rejects,
yields no filter. -/
def parseDateParam (p : Option String) : Option Date :=
  match presentStr p with
  | some raw => parseDate raw
  | none => none

/-- A crash of a request handler: an exception that no `except` clause
catches (surfaces as HTTP 500). -/
inductive QueryError where
  | uncaught
deriving DecidableEq

/-- Amount-bound parameter handling of the listing (main.py lines 270-279):
`except ValueError: pass` drops the bound when `parse_amount_to_cents`
raises `ValueError`, but a `decimal.InvalidOperation` escaping it crashes
the whole request. -/
def amountBound (p : Option String) : Except QueryError (Option ℤ) :=
  match presentStr p with
  | none => .ok none
  | some v =>
    match parse_amount_to_cents v with
    | .ok n => .ok (some n)
    | .error .invalidAmount => .ok none
    | .error .uncaught => .error .uncaught

/-- Sum of `amount_cents` with SQL `coalesce(sum(...), 0)` semantics. -/
def sumCents (l : List Txn) : ℤ := (l.map (fun t => t.amount_cents)).sum

/-- Descending, stable sort by `occurred_at` (`ORDER BY occurred_at DESC`;
the order among equal dates is unspecified by SQL, and this fixed stable
order is one admissible refinement, used identically by the code model and
the spec-side characterization). -/
def sortDateDesc (l : List Txn) : List Txn :=
  sortBy (fun a b => dateLt a.occurred_at b.occurred_at) l

/-- One `[f x]`-or-`[]` step of the Python `filters.append` chain. -/
def optFilter {α : Type} : Option α → (α → Txn → Bool) → List (Txn → Bool)
  | some x, f => [f x]
  | none, _ => []

/-- What the listing hands to its template: the (capped) page plus the
income/expense sums exposed as integer cents (their `cents_to_display`
rendering is presentation). -/
structure ListingPage where
  transactions : List Txn
  income : ℤ
  expense : ℤ
deriving DecidableEq

/-- `transactions_list` (main.py lines 230-323): scope by org and role,
build the conjunction of the present filters, order by date descending,
cap the page at 500 rows, and compute both sums over the uncapped filtered
set. -/
def transactions_list (db : Db) (u : UserRec) (p : QueryParams) :
    Except QueryError ListingPage := do
  let startD := parseDateParam p.start_date
  let endD := parseDateParam p.end_date
  let minB ← amountBound p.min_amount
  let maxB ← amountBound p.max_amount
  let filters : List (Txn → Bool) :=
    optFilter startD (fun d t => dateLe d t.occurred_at) ++
    optFilter endD (fun d t => dateLe t.occurred_at d) ++
    optFilter p.category_id (fun cid t => t.category_id == cid) ++
    optFilter p.account_id (fun aid t => t.account_id == aid) ++
    optFilter minB (fun n t => decide (n ≤ t.amount_cents)) ++
    optFilter maxB (fun n t => decide (t.amount_cents ≤ n)) ++
    optFilter (presentStr p.q) (fun kw t => keywordPred kw t)
  let query := scopeTxns db.transactions u
  let query := if filters.isEmpty then query
    else query.filter (fun t => filters.all (fun f => f t))
  pure {
    transactions := (sortDateDesc query).take 500
    income := sumCents (query.filter (fun t => t.type == "income"))
    expense := sumCents (query.filter (fun t => t.type == "expense")) }

/-- Name of the category a transaction references (inner-join semantics are
handled at each use site; a dangling reference would raise in Python and
never occurs in the inputs considered). -/
def categoryName (db : Db) (cid : ℕ) : String :=
  ((db.categories.find? (fun c => c.id == cid)).map (fun c => c.name)).getD ""

def accountName (db : Db) (aid : ℕ) : String :=
  ((db.accounts.find? (fun a => a.id == aid)).map (fun a => a.name)).getD ""

def userName (db : Db) (uid : ℕ) : String :=
  ((db.users.find? (fun v => v.id == uid)).map (fun v => v.name)).getD ""

/-- One row of the CSV export (the writer itself is external; field order is
the contract). -/
structure ExportRow where
  date : String
  type : String
  amount : String
  category : String
  account : String
  note : String
  tags : String
  user : String
deriving DecidableEq

/-- `export_csv` (main.py lines 617-694): the same scoping, the date /
category / account / keyword filters applied in sequence, date-descending
order, no row cap — the `min_amount` / `max_amount` parameters are never
read. -/
def export_csv (db : Db) (u : UserRec) (p : QueryParams) : List ExportRow :=
  let q0 := scopeTxns db.transactions u
  let q1 := match parseDateParam p.start_date with
    | some d => q0.filter (fun t => dateLe d t.occurred_at)
    | none => q0
  let q2 := match parseDateParam p.end_date with
    | some d => q1.filter (fun t => dateLe t.occurred_at d)
    | none => q1
  let q3 := match p.category_id with
    | some cid => q2.filter (fun t => t.category_id == cid)
    | none => q2
  let q4 := match p.account_id with
    | some aid => q3.filter (fun t => t.account_id == aid)
    | none => q3
  let q5 := match presentStr p.q with
    | some kw => q4.filter (fun t => keywordPred kw t)
    | none => q4
  (sortDateDesc q5).map (fun t =>
    { date := dateIso t.occurred_at
      type := t.type
      amount := cents_to_display t.amount_cents
      category := categoryName db t.category_id
      account := accountName db t.account_id
      note := t.note.getD ""
      tags := t.tags.getD ""
      user := userName db t.user_id })

/-- First day of the current month. -/
def monthStart (today : Date) : Date := ⟨today.year, today.month, 1⟩

/-- January 1 of the current year. -/
def yearStart (today : Date) : Date := ⟨today.year, 1, 1⟩

/-- `sum_for_range` inner sums (main.py lines 531-542). -/
def sumFor (base : List Txn) (anchor : Date) (ty : String) : ℤ :=
  sumCents (base.filter (fun t => dateLe anchor t.occurred_at && t.type == ty))

/-- The category breakdown query of the reports page (main.py lines
547-557): expense transactions of the organization since the month start,
inner-joined to categories, grouped by category name, summed and sorted by
descending total. Note this query never applies the per-user scoping. -/
def reportBreakdown (db : Db) (orgId : ℕ) (today : Date) : List (String × ℤ) :=
  let txs := db.transactions.filter (fun t =>
    t.org_id == orgId && t.type == "expense" && dateLe (monthStart today) t.occurred_at)
  let named := txs.filterMap (fun t =>
    (db.categories.find? (fun c => c.id == t.category_id)).map (fun c => (c.name, t.amount_cents)))
  let names := (named.map Prod.fst).eraseDups
  let rows := names.map (fun n => (n, ((named.filter (fun pr => pr.1 == n)).map Prod.snd).sum))
  sortBy (fun a b => a.2 < b.2) rows

/-- Output of the reports page, as integer cents plus the breakdown. -/
structure ReportOut where
  month_income : ℤ
  month_expense : ℤ
  year_income : ℤ
  year_expense : ℤ
  category_breakdown : List (String × ℤ)
deriving DecidableEq

/-- `reports_page` (main.py lines 517-573): month-to-date and year-to-date
sums over the role-scoped set, and the category breakdown (which is only
org-scoped). -/
def reports_page (db : Db) (u : UserRec) (today : Date) : ReportOut :=
  let base := scopeTxns db.transactions u
  { month_income := sumFor base (monthStart today) "income"
    month_expense := sumFor base (monthStart today) "expense"
    year_income := sumFor base (yearStart today) "income"
    year_expense := sumFor base (yearStart today) "expense"
    category_breakdown := reportBreakdown db u.org_id today }

/-- Python truthiness of the nullable `budget.category_id` column. -/
def pyTruthyOpt (o : Option ℕ) : Bool := o.getD 0 != 0

/-- The per-budget spend query shared by the dashboard and the budgets page
(main.py lines 118-129, 465-476): organization-wide expense transactions in
the inclusive window, narrowed to the budget's category when that field is
truthy. -/
def computeSpent (db : Db) (orgId : ℕ) (b : BudgetRec) : ℤ :=
  let q := db.transactions.filter (fun t =>
    t.org_id == orgId && t.type == "expense" &&
    dateLe b.start_date t.occurred_at && dateLe t.occurred_at b.end_date)
  let q := if pyTruthyOpt b.category_id then
    q.filter (fun t => t.category_id == b.category_id.getD 0) else q
  sumCents q

/-- One dashboard budget summary entry (main.py lines 130-136). -/
structure BudgetSummary where
  budget : BudgetRec
  spent : ℤ
  remaining : ℤ
deriving DecidableEq

/-- Output of the dashboard: month-to-date sums plus budget summaries. -/
structure DashOut where
  income : ℤ
  expense : ℤ
  budget_summaries : List BudgetSummary
deriving DecidableEq

/-- `dashboard` (main.py lines 89-148): role-scoped month sums, and one
summary per budget of the organization with `remaining = amount - spent`. -/
def dashboard (db : Db) (u : UserRec) (today : Date) : DashOut :=
  let base := scopeTxns db.transactions u
  let monthQ := base.filter (fun t => dateLe (monthStart today) t.occurred_at)
  { income := sumCents (monthQ.filter (fun t => t.type == "income"))
    expense := sumCents (monthQ.filter (fun t => t.type == "expense"))
    budget_summaries := (db.budgets.filter (fun b => b.org_id == u.org_id)).map (fun b =>
      { budget := b
        spent := computeSpent db u.org_id b
        remaining := b.amount_cents - computeSpent db u.org_id b }) }

/-- `budgets_page` rows (main.py lines 452-482): budgets of the organization,
newest id first, each with its spend (no remaining column here). -/
def budgets_page (db : Db) (u : UserRec) : List (BudgetRec × ℤ) :=
  let budgets := sortBy (fun a b => a.id < b.id)
    (db.budgets.filter (fun b => b.org_id == u.org_id))
  budgets.map (fun b => (b, computeSpent db u.org_id b))

/-- The transaction creation form fields (all text fields arrive as strings;
`category_id`/`account_id` are bound by FastAPI as integers). -/
structure TxnForm where
  amount : String
  type : String
  occurred_at : String
  category_id : ℕ
  account_id : ℕ
  note : String
  tags : String
deriving DecidableEq

/-- Failure modes of a create handler: the explicit 403 for `readonly`, the
`ValueError` from a bad amount, or any other uncaught exception (bad date,
decimal overflow). In every failure case nothing reaches `db.add`, so no
row is persisted. -/
inductive CreateError where
  | permissionDenied
  | invalidAmount
  | uncaught
deriving DecidableEq

/-- `transaction_create` (main.py lines 352-384): reject exactly the
`readonly` role, parse the amount, parse the date, and build the row with
`org_id`/`user_id` taken from the session user, never from the form.
The returned row is what `db.add`/`db.commit` persist. -/
def transaction_create (u : UserRec) (f : TxnForm) : Except CreateError Txn :=
  if u.role == "readonly" then .error .permissionDenied
  else
    match parse_amount_to_cents f.amount with
    | .error .invalidAmount => .error .invalidAmount
    | .error .uncaught => .error .uncaught
    | .ok cents =>
      match parseDate f.occurred_at with
      | none => .error .uncaught
      | some d => .ok {
          org_id := u.org_id
          user_id := u.id
          account_id := f.account_id
          category_id := f.category_id
          amount_cents := cents
          type := f.type
          occurred_at := d
          note := if f.note = "" then none else some f.note
          tags := if f.tags = "" then none else some f.tags }

/-- The budget creation form fields. -/
structure BudgetForm where
  name : String
  period : String
  amount : String
  start_date : String
  end_date : String
  category_id : Option ℕ
deriving DecidableEq

/-- `budgets_create` (main.py lines 485-514); the autoincrement id is
assigned by the store and passed in here. -/
def budgets_create (u : UserRec) (f : BudgetForm) (newId : ℕ) :
    Except CreateError BudgetRec :=
  if u.role == "readonly" then .error .permissionDenied
  else
    match parse_amount_to_cents f.amount with
    | .error .invalidAmount => .error .invalidAmount
    | .error .uncaught => .error .uncaught
    | .ok cents =>
      match parseDate f.start_date, parseDate f.end_date with
      | some ds, some de => .ok {
          id := newId
          org_id := u.org_id
          name := f.name
          period := f.period
          category_id := f.category_id
          amount_cents := cents
          start_date := ds
          end_date := de }
      | _, _ => .error .uncaught

/-- Spec-side keyword predicate, from the spec's words: case-insensitive
contiguous substring match against note OR tags, null fields read as the
empty string (ASCII case fold, as in `keywordPred`). -/
def specKeywordSub (kw : String) (t : Txn) : Bool :=
  occursIn (kw.toList.map asciiLower) ((t.note.getD "").toList.map asciiLower) ||
    occursIn (kw.toList.map asciiLower) ((t.tags.getD "").toList.map asciiLower)

/-- Spec-side budget-spend predicate, from the spec's words: an expense
transaction of the whole organization, occurring inside the inclusive
budget window, of the budget's category exactly when that field is
non-null. -/
def specBudgetMatch (orgId : ℕ) (b : BudgetRec) (t : Txn) : Bool :=
  t.org_id == orgId && t.type == "expense" &&
  dateLe b.start_date t.occurred_at && dateLe t.occurred_at b.end_date &&
  (match b.category_id with
   | some cid => t.category_id == cid
   | none => true)

/-- Spec-side optional amount bound: the parsed cent value when parsing
succeeds, no bound on any failure (the spec's "parse failure causes that
bound to be silently dropped"). -/
def specAmountBound (p : Option String) : Option ℤ :=
  match presentStr p with
  | some v => (parse_amount_to_cents v).toOption
  | none => none

/-- An optional predicate: trivially true when its parameter is absent. -/
def optPred {α : Type} (o : Option α) (f : α → Txn → Bool) (t : Txn) : Bool :=
  match o with
  | some x => f x t
  | none => true

/-- Spec-side conjunction of all present listing predicates (spec section
4.3): date range, category equality, account equality, amount range,
keyword, each absent when its parameter is missing, empty or unparseable. -/
def listingPred (p : QueryParams) (t : Txn) : Bool :=
  optPred (parseDateParam p.start_date) (fun d t => dateLe d t.occurred_at) t &&
  optPred (parseDateParam p.end_date) (fun d t => dateLe t.occurred_at d) t &&
  optPred p.category_id (fun cid t => t.category_id == cid) t &&
  optPred p.account_id (fun aid t => t.account_id == aid) t &&
  optPred (specAmountBound p.min_amount) (fun n t => decide (n ≤ t.amount_cents)) t &&
  optPred (specAmountBound p.max_amount) (fun n t => decide (t.amount_cents ≤ n)) t &&
  optPred (presentStr p.q) (fun kw t => keywordPred kw t) t

/-- Spec-side listing (spec section 4.3 algorithm): filter the scoped base
set by the conjunction of present predicates, sort by date descending, cap
the page at 500; sums over the full filtered set. -/
def listingSpec (db : Db) (u : UserRec) (p : QueryParams) : ListingPage :=
  let matched := (scopeTxns db.transactions u).filter (listingPred p)
  { transactions := (sortDateDesc matched).take 500
    income := sumCents (matched.filter (fun t => t.type == "income"))
    expense := sumCents (matched.filter (fun t => t.type == "expense")) }

/-- Fixture: an expense category of organization 1. -/
def catFood : CategoryRec := ⟨3, 1, "Food", "expense"⟩

/-- Fixture: the cash account of organization 1. -/
def acctCash : AccountRec := ⟨1, 1, "Cash"⟩

/-- Fixture: the admin of organization 1. -/
def userAdmin : UserRec := ⟨1, 1, "Admin", "admin"⟩

/-- Fixture: a `user`-role member of organization 1. -/
def userBob : UserRec := ⟨2, 1, "Bob", "user"⟩

/-- Fixture: an expense transaction recorded by user 1 in June 2025. -/
def txOther : Txn := ⟨1, 1, 1, 3, 100, "expense", ⟨2025, 6, 10⟩, none, none⟩

/-- Fixture database for the reports claims. -/
def dbReports : Db := ⟨[userAdmin, userBob], [catFood], [acctCash], [txOther], []⟩

/-- Fixture: a mid-June 2025 "today". -/
def exToday : Date := ⟨2025, 6, 15⟩

/-- Fixture: a 5.00 expense. -/
def txSmall : Txn := ⟨1, 1, 1, 3, 500, "expense", ⟨2025, 6, 2⟩, some "coffee", none⟩

/-- Fixture: a 20.00 expense. -/
def txBig : Txn := ⟨1, 1, 1, 3, 2000, "expense", ⟨2025, 6, 3⟩, some "flight", none⟩

/-- Fixture database for the export / listing claims. -/
def dbExport : Db := ⟨[userAdmin], [catFood], [acctCash], [txSmall, txBig], []⟩

/-- Fixture: only a minimum-amount filter of 10 (currency units). -/
def pMin10 : QueryParams := { QueryParams.none with min_amount := some "10" }

/-- Fixture: a minimum-amount filter that parses as a `Decimal` but whose
cent conversion overflows the 28-digit context. -/
def pMinHuge : QueryParams := { QueryParams.none with min_amount := some "1e40" }

/-- Fixture: a creation form for a 10.00 expense. -/
def formTen : TxnForm := ⟨"10.00", "expense", "2025-06-10", 3, 1, "note", ""⟩

/-- Fixture: a creation form with a negative amount. -/
def formNeg : TxnForm := ⟨"-5.00", "expense", "2025-06-10", 3, 1, "", ""⟩

/-- Fixture: an actor whose role string is not one of the three recognized
roles. -/
def userGuest : UserRec := ⟨7, 1, "Mallory", "guest"⟩

/-- Fixture: a transaction whose note is the three characters `abc`. -/
def txAbc : Txn := ⟨1, 1, 1, 3, 100, "expense", ⟨2025, 1, 1⟩, some "abc", none⟩

/-- Fixture: null note, tags `TRIP` (the spec's scenario). -/
def txTrip : Txn := ⟨1, 1, 1, 3, 100, "expense", ⟨2025, 1, 1⟩, none, some "TRIP"⟩

/-- Fixture: a category-scoped budget of 3.00 over June 2025. -/
def budgetFood : BudgetRec := ⟨1, 1, "Food Budget", "monthly", some 3, 300, ⟨2025, 6, 1⟩, ⟨2025, 6, 30⟩⟩

/-- Fixture database for the budget claims: 5.00 spent against a 3.00
budget. -/
def dbBudget : Db := ⟨[userAdmin, userBob], [catFood], [acctCash], [txSmall], [budgetFood]⟩

/-- Fixture: the row `transaction_create userAdmin formTen` persists. -/
def txTenRow : Txn :=
  ⟨1, 1, 1, 3, 1000, "expense", ⟨2025, 6, 10⟩, some "note", none⟩

/-- Fixture: the row `transaction_create userAdmin formNeg` persists. -/
def txNegRow : Txn :=
  ⟨1, 1, 1, 3, -500, "expense", ⟨2025, 6, 10⟩, none, none⟩

/-- Exact rational value of a parsed finite decimal. -/
def decToRat (neg : Bool) (c : ℕ) (e : ℤ) : ℚ :=
  (if neg then (-1 : ℚ) else 1) * c * (10 : ℚ) ^ e

/-- Spec-side characterization: the normalized two-decimal form of a valid
decimal string with at most two fractional digits — the exact value scaled
to cents and rendered with a sign, no grouping separators, and exactly two
fractional digits. `none` when the string is not such a numeral. -/
def normalizedTwoDecimalForm (s : String) : Option String :=
  match parseDec s with
  | some (.finite neg co e) =>
    if -2 ≤ e then
      some (String.mk (renderFixed2 (signApply neg (co * 10 ^ (e + 2).toNat))))
    else none
  | _ => none

lemma digLenAux_pos : ∀ f n, n < f → 1 ≤ digLenAux f n := by
  intro f
  induction f with
  | zero => intro n h; omega
  | succ f ih =>
    intro n _
    unfold digLenAux
    by_cases h9 : n ≤ 9 <;> simp [h9]

lemma digLenAux_le_iff : ∀ f n k, n < f → 1 ≤ k → (digLenAux f n ≤ k ↔ n < 10 ^ k) := by
  intro f
  induction f with
  | zero => intro n k h; omega
  | succ f ih =>
    intro n k hn hk
    unfold digLenAux
    by_cases h9 : n ≤ 9
    · simp only [h9, if_true]
      constructor
      · intro _
        calc n < 10 ^ 1 := by omega
        _ ≤ 10 ^ k := Nat.pow_le_pow_right (by norm_num) hk
      · intro _; exact hk
    · simp only [h9, if_false]
      have hn10 : 10 ≤ n := by omega
      have hrec : n / 10 < f := by
        have h1 : n / 10 < n := Nat.div_lt_self (by omega) (by norm_num)
        omega
      rcases Nat.lt_or_ge k 2 with hk2 | hk2
      · have hk1 : k = 1 := by omega
        subst hk1
        have := digLenAux_pos f (n / 10) hrec
        constructor
        · intro h; omega
        · intro h; omega
      · have := ih (n / 10) (k - 1) hrec (by omega)
        have hdiv : n / 10 < 10 ^ (k - 1) ↔ n < 10 ^ k := by
          rw [Nat.div_lt_iff_lt_mul (by norm_num : 0 < 10)]
          constructor
          · intro h
            calc n < 10 ^ (k - 1) * 10 := h
            _ = 10 ^ k := by
                rw [← pow_succ]
                congr 1
                omega
          · intro h
            calc n < 10 ^ k := h
            _ = 10 ^ (k - 1) * 10 := by
                rw [← pow_succ]
                congr 1
                omega
        omega

/-- `digLen n ≤ k ↔ n < 10 ^ k`, for `1 ≤ k`. -/
lemma digLen_le_iff (n k : ℕ) (hk : 1 ≤ k) : digLen n ≤ k ↔ n < 10 ^ k :=
  digLenAux_le_iff (n + 1) n k (by omega) hk

lemma digLen_pos (n : ℕ) : 1 ≤ digLen n := digLenAux_pos (n + 1) n (by omega)

/-- `n` lies under `10 ^ digLen n`. -/
lemma lt_pow_digLen (n : ℕ) : n < 10 ^ digLen n := by
  have := (digLen_le_iff n (digLen n) (digLen_pos n)).mp le_rfl
  exact this

lemma nlog2Aux_spec : ∀ f n, n ≤ f → 1 ≤ n →
    2 ^ nlog2Aux f n ≤ n ∧ n < 2 ^ (nlog2Aux f n + 1) := by
  intro f
  induction f with
  | zero => intro n h h1; omega
  | succ f ih =>
    intro n hn h1
    unfold nlog2Aux
    by_cases h2 : n ≤ 1
    · have : n = 1 := by omega
      subst this
      simp
    · simp only [h2, if_false]
      have hrec : n / 2 ≤ f := by
        have : n / 2 < n := Nat.div_lt_self (by omega) (by norm_num)
        omega
      have h12 : 1 ≤ n / 2 := by omega
      obtain ⟨hlo, hhi⟩ := ih (n / 2) hrec h12
      constructor
      · calc 2 ^ (nlog2Aux f (n / 2) + 1) = 2 * 2 ^ nlog2Aux f (n / 2) := by ring
        _ ≤ 2 * (n / 2) := by omega
        _ ≤ n := by omega
      · have : n < 2 * (n / 2) + 2 := by omega
        calc n < 2 * (n / 2) + 2 := this
        _ ≤ 2 * 2 ^ (nlog2Aux f (n / 2) + 1) := by omega
        _ = 2 ^ (nlog2Aux f (n / 2) + 1 + 1) := by ring

/-- Defining property of `nlog2`. -/
lemma nlog2_spec (n : ℕ) (h : 1 ≤ n) : 2 ^ nlog2 n ≤ n ∧ n < 2 ^ (nlog2 n + 1) :=
  nlog2Aux_spec n n le_rfl h

lemma pow2LeFrac_iff (k : ℤ) (a b : ℕ) (hb : 1 ≤ b) :
    pow2LeFrac k a b = true ↔ (2:ℚ) ^ k ≤ (a:ℚ) / b := by
  have hbq : (0:ℚ) < b := by exact_mod_cast hb
  cases k with
  | ofNat n =>
    simp only [pow2LeFrac, decide_eq_true_eq]
    rw [Int.ofNat_eq_coe, zpow_natCast, le_div_iff hbq]
    constructor
    · intro h
      calc (2:ℚ) ^ n * b = ((b * 2 ^ n : ℕ) : ℚ) := by push_cast; ring
      _ ≤ a := by exact_mod_cast h
    · intro h
      have : ((b * 2 ^ n : ℕ) : ℚ) ≤ a := by
        calc ((b * 2 ^ n : ℕ) : ℚ) = (2:ℚ) ^ n * b := by push_cast; ring
        _ ≤ a := h
      exact_mod_cast this
  | negSucc n =>
    simp only [pow2LeFrac, decide_eq_true_eq]
    have hpow : (0:ℚ) < (2:ℚ) ^ (n + 1) := by positivity
    rw [zpow_negSucc, ← one_div, div_le_div_iff hpow hbq, one_mul]
    constructor
    · intro h
      have h2 : ((b:ℕ):ℚ) ≤ ((a * 2 ^ (n + 1) : ℕ):ℚ) := by exact_mod_cast h
      push_cast at h2
      linarith
    · intro h
      have h2 : ((b:ℕ):ℚ) ≤ ((a * 2 ^ (n + 1) : ℕ):ℚ) := by push_cast; linarith
      exact_mod_cast h2

lemma ilog2Frac_spec (a b : ℕ) (ha : 1 ≤ a) (hb : 1 ≤ b) :
    (2:ℚ) ^ ilog2Frac a b ≤ (a:ℚ) / b ∧ (a:ℚ) / b < 2 ^ (ilog2Frac a b + 1) := by
  have hbq : (0:ℚ) < b := by exact_mod_cast hb
  have haq : (0:ℚ) < a := by exact_mod_cast ha
  obtain ⟨hla, hla2⟩ := nlog2_spec a ha
  obtain ⟨hlb, hlb2⟩ := nlog2_spec b hb
  set la := nlog2 a with hlaDef
  set lb := nlog2 b with hlbDef
  set k0 : ℤ := (la : ℤ) - (lb : ℤ) with hk0
  have hlow : (2:ℚ) ^ (k0 - 1) ≤ (a:ℚ) / b := by
    have h1 : (2:ℚ) ^ (k0 - 1) = (2:ℚ) ^ (la:ℤ) / (2:ℚ) ^ ((lb:ℤ) + 1) := by
      rw [← zpow_sub₀ (by norm_num : (2:ℚ) ≠ 0)]
      congr 1
      omega
    rw [h1, div_le_div_iff (by positivity) hbq]
    have c1 : (2:ℚ) ^ (la:ℤ) ≤ a := by
      rw [zpow_natCast]
      exact_mod_cast hla
    have c2 : (b:ℚ) ≤ (2:ℚ) ^ ((lb:ℤ) + 1) := by
      have : ((lb:ℤ) + 1) = ((lb + 1 : ℕ) : ℤ) := by push_cast; ring
      rw [this, zpow_natCast]
      exact_mod_cast le_of_lt hlb2
    calc (2:ℚ) ^ (la:ℤ) * b ≤ (a:ℚ) * b := by
          apply mul_le_mul_of_nonneg_right c1 (le_of_lt hbq)
    _ ≤ (a:ℚ) * (2:ℚ) ^ ((lb:ℤ) + 1) := by
          apply mul_le_mul_of_nonneg_left c2 (le_of_lt haq)
  have hhigh : (a:ℚ) / b < (2:ℚ) ^ (k0 + 1) := by
    have h1 : (2:ℚ) ^ (k0 + 1) = (2:ℚ) ^ ((la:ℤ) + 1) / (2:ℚ) ^ (lb:ℤ) := by
      rw [← zpow_sub₀ (by norm_num : (2:ℚ) ≠ 0)]
      congr 1
      omega
    rw [h1, div_lt_div_iff hbq (by positivity)]
    have c1 : (a:ℚ) < (2:ℚ) ^ ((la:ℤ) + 1) := by
      have : ((la:ℤ) + 1) = ((la + 1 : ℕ) : ℤ) := by push_cast; ring
      rw [this, zpow_natCast]
      exact_mod_cast hla2
    have c2 : (2:ℚ) ^ (lb:ℤ) ≤ b := by
      rw [zpow_natCast]
      exact_mod_cast hlb
    calc (a:ℚ) * (2:ℚ) ^ (lb:ℤ) ≤ (a:ℚ) * b := by
          apply mul_le_mul_of_nonneg_left c2 (le_of_lt haq)
    _ < (2:ℚ) ^ ((la:ℤ) + 1) * b := by
          apply mul_lt_mul_of_pos_right c1 hbq
  unfold ilog2Frac
  cases hcase : pow2LeFrac ((nlog2 a : ℤ) - (nlog2 b : ℤ)) a b with
  | true =>
    simp only [hcase, if_true]
    exact ⟨(pow2LeFrac_iff _ a b hb).mp hcase, hhigh⟩
  | false =>
    simp only [hcase, Bool.false_eq_true, if_false]
    refine ⟨hlow, ?_⟩
    have hnot : ¬ ((2:ℚ) ^ k0 ≤ (a:ℚ) / b) := by
      intro h
      have := (pow2LeFrac_iff _ a b hb).mpr h
      rw [hcase] at this
      exact Bool.false_ne_true this
    push_neg at hnot
    have heq : (k0 - 1) + 1 = k0 := by omega
    rw [heq]
    exact hnot

lemma rheND_dist (a b : ℕ) (hb : 0 < b) : |((rheND a b : ℕ) : ℚ) - (a:ℚ) / b| ≤ 1/2 := by
  have hbq : (0:ℚ) < b := by exact_mod_cast hb
  have hdm : b * (a / b) + a % b = a := Nat.div_add_mod a b
  have hsplit : (a:ℚ) / b = ((a / b : ℕ) : ℚ) + ((a % b : ℕ) : ℚ) / b := by
    field_simp
    calc (a:ℚ) = ((b * (a / b) + a % b : ℕ) : ℚ) := by exact_mod_cast hdm.symm
    _ = ((a / b : ℕ) : ℚ) * b + ((a % b : ℕ) : ℚ) := by push_cast; ring
  set q := a / b
  set r := a % b
  have hr : r < b := Nat.mod_lt _ hb
  have hrq : ((r:ℚ)) / b < 1 := by
    rw [div_lt_one hbq]
    exact_mod_cast hr
  have hrq0 : (0:ℚ) ≤ (r:ℚ) / b := by positivity
  unfold rheND
  by_cases h1 : 2 * r < b
  · have : ((r:ℚ)) / b < 1/2 := by
      rw [div_lt_div_iff hbq (by norm_num : (0:ℚ) < 2)]
      have : (2 * r : ℕ) < b := h1
      have := (Nat.cast_lt (α := ℚ)).mpr this
      push_cast at this ⊢
      linarith
    simp only [h1, if_true, hsplit]
    rw [abs_le]
    constructor <;> [skip; skip] <;> push_cast <;> linarith
  · by_cases h2 : b < 2 * r
    · have hhalf : (1:ℚ)/2 < ((r:ℚ)) / b := by
        rw [div_lt_div_iff (by norm_num : (0:ℚ) < 2) hbq]
        have := (Nat.cast_lt (α := ℚ)).mpr h2
        push_cast at this ⊢
        linarith
      simp only [h1, h2, if_false, if_true, hsplit]
      rw [abs_le]
      constructor <;> push_cast <;> linarith
    · have heq : 2 * r = b := by omega
      have hhalf : ((r:ℚ)) / b = 1/2 := by
        have : ((2 * r : ℕ) : ℚ) = b := by exact_mod_cast congrArg (Nat.cast (R := ℚ)) heq
        push_cast at this
        field_simp
        linarith
      simp only [h1, h2, if_false, hsplit]
      by_cases h3 : q % 2 = 0 <;> simp only [h3, if_true, if_false] <;>
        rw [abs_le] <;> constructor <;> push_cast <;> linarith

lemma rheND_eq_of_close (a b t : ℕ) (hb : 0 < b) (h : |(a:ℚ)/b - (t:ℚ)| < 1/2) :
    rheND a b = t := by
  have hd := rheND_dist a b hb
  have : |((rheND a b : ℕ) : ℚ) - (t:ℚ)| < 1 := by
    calc |((rheND a b : ℕ) : ℚ) - (t:ℚ)|
        ≤ |((rheND a b : ℕ) : ℚ) - (a:ℚ)/b| + |(a:ℚ)/b - (t:ℚ)| := abs_sub_le _ _ _
    _ < 1/2 + 1/2 := by
        apply add_lt_add_of_le_of_lt hd h
    _ = 1 := by norm_num
  have : |((rheND a b : ℤ) : ℚ) - ((t:ℤ) : ℚ)| < 1 := by push_cast at this ⊢; exact this
  have habs : |((rheND a b : ℤ)) - (t:ℤ)| < 1 := by
    have h2 : ((|((rheND a b : ℤ)) - (t:ℤ)| : ℤ) : ℚ) < 1 := by push_cast; exact this
    exact_mod_cast h2
  have h3 := abs_lt.mp habs
  omega

lemma rheND_mul_self (a b : ℕ) (hb : 0 < b) : rheND (a * b) b = a := by
  unfold rheND
  simp [Nat.mul_div_cancel _ hb, Nat.mul_mod_left, hb]

lemma digitChar_toNat (d : ℕ) (hd : d ≤ 9) : (digitChar d).toNat = 48 + d := by
  interval_cases d <;> decide

lemma isDigitC_digitChar (d : ℕ) (hd : d ≤ 9) : isDigitC (digitChar d) = true := by
  interval_cases d <;> decide

lemma digitVal_digitChar (d : ℕ) (hd : d ≤ 9) : digitVal (digitChar d) = d := by
  interval_cases d <;> decide

lemma digitsVal_general (cs : List Char) :
    ∀ a : ℕ, cs.foldl (fun a c => 10 * a + digitVal c) a = a * 10 ^ cs.length + digitsVal cs := by
  induction cs with
  | nil => intro a; simp [digitsVal]
  | cons c cs ih =>
    intro a
    simp only [List.foldl_cons, List.length_cons, digitsVal]
    rw [ih (10 * a + digitVal c), ih (10 * 0 + digitVal c)]
    ring

lemma digitsVal_append (xs ys : List Char) :
    digitsVal (xs ++ ys) = digitsVal xs * 10 ^ ys.length + digitsVal ys := by
  unfold digitsVal
  rw [List.foldl_append]
  exact digitsVal_general ys (List.foldl (fun a c => 10 * a + digitVal c) 0 xs)

lemma digitsVal_cons (c : Char) (cs : List Char) :
    digitsVal (c :: cs) = digitVal c * 10 ^ cs.length + digitsVal cs := by
  have := digitsVal_append [c] cs
  simpa [digitsVal] using this

lemma natToDigitsAux_acc : ∀ f n acc, natToDigitsAux f n acc = natToDigitsAux f n [] ++ acc := by
  intro f
  induction f with
  | zero => intro n acc; simp [natToDigitsAux]
  | succ f ih =>
    intro n acc
    unfold natToDigitsAux
    by_cases h9 : n ≤ 9
    · simp [h9]
    · simp only [h9, if_false]
      rw [ih (n / 10) (digitChar (n % 10) :: acc), ih (n / 10) [digitChar (n % 10)]]
      simp

lemma natToDigitsAux_val : ∀ f n, n < f → digitsVal (natToDigitsAux f n []) = n := by
  intro f
  induction f with
  | zero => intro n h; omega
  | succ f ih =>
    intro n hn
    unfold natToDigitsAux
    by_cases h9 : n ≤ 9
    · simp only [h9, if_true]
      rw [digitsVal_cons]
      simp [digitsVal, digitVal_digitChar n h9]
    · simp only [h9, if_false]
      rw [natToDigitsAux_acc, digitsVal_append]
      have hrec : n / 10 < f := by
        have : n / 10 < n := Nat.div_lt_self (by omega) (by norm_num)
        omega
      rw [ih (n / 10) hrec]
      have hmod : digitsVal [digitChar (n % 10)] = n % 10 := by
        simp [digitsVal, digitVal_digitChar (n % 10) (by omega)]
      rw [hmod]
      simp only [List.length_singleton]
      omega

/-- Rendering then reading back a natural number is the identity. -/
lemma digitsVal_natToDigits (n : ℕ) : digitsVal (natToDigits n) = n :=
  natToDigitsAux_val (n + 1) n (by omega)

lemma natToDigitsAux_mem_digit :
    ∀ f n c, c ∈ natToDigitsAux f n [] → isDigitC c = true := by
  intro f
  induction f with
  | zero => intro n c h; simp [natToDigitsAux] at h
  | succ f ih =>
    intro n c hc
    unfold natToDigitsAux at hc
    by_cases h9 : n ≤ 9
    · simp only [h9, if_true, List.mem_singleton] at hc
      subst hc
      exact isDigitC_digitChar n h9
    · simp only [h9, if_false] at hc
      rw [natToDigitsAux_acc, List.mem_append] at hc
      rcases hc with hc | hc
      · exact ih (n / 10) c hc
      · simp only [List.mem_singleton] at hc
        subst hc
        exact isDigitC_digitChar (n % 10) (by omega)

lemma natToDigits_all_digits (n : ℕ) : ∀ c ∈ natToDigits n, isDigitC c = true :=
  fun c hc => natToDigitsAux_mem_digit (n + 1) n c hc

lemma natToDigitsAux_eq_nil : ∀ f n acc, natToDigitsAux f n acc = [] → f = 0 ∧ acc = [] := by
  intro f
  induction f with
  | zero => intro n acc h; exact ⟨rfl, h⟩
  | succ f ih =>
    intro n acc h
    unfold natToDigitsAux at h
    by_cases h9 : n ≤ 9
    · simp [h9] at h
    · simp only [h9, if_false] at h
      have := ih (n / 10) (digitChar (n % 10) :: acc) h
      exact absurd this.2 (by simp)

lemma natToDigits_ne_nil (n : ℕ) : natToDigits n ≠ [] := by
  intro h
  have := natToDigitsAux_eq_nil (n + 1) n [] h
  omega

lemma natToDigits_single (n : ℕ) (h : n ≤ 9) : natToDigits n = [digitChar n] := by
  unfold natToDigits natToDigitsAux
  simp [h]

lemma natToDigits_double (m : ℕ) (h1 : 10 ≤ m) (h2 : m ≤ 99) :
    natToDigits m = [digitChar (m / 10), digitChar (m % 10)] := by
  obtain ⟨f, rfl⟩ : ∃ f, m = f + 1 := ⟨m - 1, by omega⟩
  unfold natToDigits
  show natToDigitsAux (f + 1 + 1) (f + 1) [] = _
  unfold natToDigitsAux
  have h9 : ¬ (f + 1 ≤ 9) := by omega
  simp only [h9, if_false]
  unfold natToDigitsAux
  have hd : (f + 1) / 10 ≤ 9 := by omega
  simp [hd]

lemma dateLe_of_not_dateLt {a b : Date} (h : dateLt a b = false) : dateLe b a = true := by
  unfold dateLt at h
  unfold dateLe
  rw [decide_eq_false_iff_not] at h
  rw [decide_eq_true_eq]
  omega

lemma dateLe_of_dateLt {a b : Date} (h : dateLt a b = true) : dateLe a b = true := by
  unfold dateLt at h
  unfold dateLe
  rw [decide_eq_true_eq] at h ⊢
  omega

lemma insertStable_perm {α : Type} (below : α → α → Bool) (a : α) :
    ∀ l : List α, (insertStable below a l).Perm (a :: l) := by
  intro l
  induction l with
  | nil => simp [insertStable]
  | cons b l ih =>
    unfold insertStable
    by_cases h : below a b = true
    · simp only [h, if_true]
      exact (ih.cons b).trans (List.Perm.swap a b l)
    · simp [h]

lemma sortBy_perm {α : Type} (below : α → α → Bool) :
    ∀ l : List α, (sortBy below l).Perm l := by
  intro l
  induction l with
  | nil => simp [sortBy]
  | cons a l ih =>
    unfold sortBy
    exact (insertStable_perm below a (sortBy below l)).trans (ih.cons a)

lemma likeMatchF_fuel : ∀ f p s, p.length + s.length < f →
    ∀ f', p.length + s.length < f' → likeMatchF f p s = likeMatchF f' p s := by
  intro f
  induction f with
  | zero => intro p s h; omega
  | succ f ih =>
    intro p s hf f' hf'
    obtain ⟨f2, rfl⟩ : ∃ f2, f' = f2 + 1 := ⟨f' - 1, by omega⟩
    cases p with
    | nil => rfl
    | cons a pr =>
      cases s with
      | nil =>
        show (if a = '%' then likeMatchF f pr [] else false)
            = (if a = '%' then likeMatchF f2 pr [] else false)
        have h1 : likeMatchF f pr [] = likeMatchF f2 pr [] := by
          apply ih <;> simp at hf hf' ⊢ <;> omega
        rw [h1]
      | cons c sr =>
        show (if a = '%' then likeMatchF f pr (c :: sr) || likeMatchF f (a :: pr) sr
              else (decide (a = '_') || a == c) && likeMatchF f pr sr)
            = (if a = '%' then likeMatchF f2 pr (c :: sr) || likeMatchF f2 (a :: pr) sr
              else (decide (a = '_') || a == c) && likeMatchF f2 pr sr)
        have h1 : likeMatchF f pr (c :: sr) = likeMatchF f2 pr (c :: sr) := by
          apply ih <;> simp at hf hf' ⊢ <;> omega
        have h2 : likeMatchF f (a :: pr) sr = likeMatchF f2 (a :: pr) sr := by
          apply ih <;> simp at hf hf' ⊢ <;> omega
        have h3 : likeMatchF f pr sr = likeMatchF f2 pr sr := by
          apply ih <;> simp at hf hf' ⊢ <;> omega
        rw [h1, h2, h3]

lemma likeMatch_unfold (p s : List Char) :
    ∀ f, p.length + s.length < f → likeMatchF f p s = likeMatch p s := by
  intro f hf
  exact likeMatchF_fuel f p s hf (p.length + s.length + 1) (by omega)

lemma bool_eq_of_iff {a b : Bool} (h : a = true ↔ b = true) : a = b := by
  cases a <;> cases b <;> simp_all

lemma likeMatch_percent_nil : ∀ s f, s.length + 1 < f → likeMatchF f ['%'] s = true := by
  intro s
  induction s with
  | nil =>
    intro f hf
    obtain ⟨f2, rfl⟩ : ∃ f2, f = f2 + 1 := ⟨f - 1, by omega⟩
    obtain ⟨f3, rfl⟩ : ∃ f3, f2 = f3 + 1 := ⟨f2 - 1, by omega⟩
    rfl
  | cons c sr ih =>
    intro f hf
    obtain ⟨f2, rfl⟩ : ∃ f2, f = f2 + 1 := ⟨f - 1, by omega⟩
    show (if '%' = '%' then likeMatchF f2 [] (c :: sr) || likeMatchF f2 ['%'] sr
          else (decide ('%' = '_') || '%' == c) && likeMatchF f2 [] sr) = true
    rw [if_pos rfl, ih f2 (by simp at hf ⊢; omega)]
    simp

lemma likeMatch_lit_percent (k : List Char) (hk : noMeta k = true) :
    ∀ s f, k.length + 1 + s.length < f →
      (likeMatchF f (k ++ ['%']) s = true ↔ leadsWith k s = true) := by
  induction k with
  | nil =>
    intro s f hf
    simp only [List.nil_append]
    rw [likeMatch_percent_nil s f (by simp at hf ⊢; omega)]
    simp [leadsWith]
  | cons a k ih =>
    intro s f hf
    have hmeta := hk
    unfold noMeta at hmeta
    simp only [List.all_cons, Bool.and_eq_true] at hmeta
    obtain ⟨⟨hA, hB⟩, hrest⟩ := hmeta
    have hknm : noMeta k = true := hrest
    have ha1 : ¬ (a = '%') := by simpa [bne_iff_ne] using hA
    have ha2 : ¬ (a = '_') := by simpa [bne_iff_ne] using hB
    obtain ⟨f2, rfl⟩ : ∃ f2, f = f2 + 1 := ⟨f - 1, by omega⟩
    cases s with
    | nil =>
      show ((if a = '%' then likeMatchF f2 (k ++ ['%']) [] else false) = true ↔ _)
      rw [if_neg ha1]
      simp [leadsWith]
    | cons c sr =>
      show ((if a = '%' then likeMatchF f2 (k ++ ['%']) (c :: sr) || likeMatchF f2 ((a :: k) ++ ['%']) sr
            else (decide (a = '_') || a == c) && likeMatchF f2 (k ++ ['%']) sr) = true ↔ _)
      rw [if_neg ha1]
      unfold leadsWith
      rw [Bool.and_eq_true, Bool.and_eq_true, Bool.or_eq_true,
        ih hknm sr f2 (by simp at hf ⊢; omega)]
      constructor
      · rintro ⟨h1, h2⟩
        rcases h1 with h1 | h1
        · exact absurd (of_decide_eq_true h1) ha2
        · exact ⟨h1, h2⟩
      · rintro ⟨h1, h2⟩
        exact ⟨Or.inr h1, h2⟩

lemma likeMatch_substring_aux (k : List Char) (hk : noMeta k = true) :
    ∀ s f, ('%' :: (k ++ ['%'])).length + s.length < f →
      likeMatchF f ('%' :: (k ++ ['%'])) s = occursIn k s := by
  intro s
  induction s with
  | nil =>
    intro f hf
    obtain ⟨f2, rfl⟩ : ∃ f2, f = f2 + 1 := ⟨f - 1, by omega⟩
    show (if '%' = '%' then likeMatchF f2 (k ++ ['%']) [] else false) = occursIn k []
    rw [if_pos rfl]
    have hlit := likeMatch_lit_percent k hk [] f2 (by simp at hf ⊢; omega)
    unfold occursIn
    exact bool_eq_of_iff hlit
  | cons c sr ih =>
    intro f hf
    obtain ⟨f2, rfl⟩ : ∃ f2, f = f2 + 1 := ⟨f - 1, by omega⟩
    show (if '%' = '%' then likeMatchF f2 (k ++ ['%']) (c :: sr) || likeMatchF f2 ('%' :: (k ++ ['%'])) sr
          else (decide ('%' = '_') || '%' == c) && likeMatchF f2 (k ++ ['%']) sr) = occursIn k (c :: sr)
    rw [if_pos rfl]
    have hlit := likeMatch_lit_percent k hk (c :: sr) f2 (by simp at hf ⊢; omega)
    have hrec := ih f2 (by simp at hf ⊢; omega)
    unfold occursIn
    rw [hrec, bool_eq_of_iff hlit]

/-- For a metacharacter-free needle `k`, the SQL pattern `%k%` matches `s`
exactly when `k` occurs contiguously in `s`. -/
lemma likeMatch_substring (k s : List Char) (hk : noMeta k = true) :
    likeMatch ('%' :: (k ++ ['%'])) s = occursIn k s :=
  likeMatch_substring_aux k hk s _ (by omega)

lemma char_ofNat_toNat_small (n : ℕ) (h : n < 55296) : (Char.ofNat n).toNat = n := by
  unfold Char.ofNat
  rw [dif_pos (Or.inl h)]
  rfl

lemma char_eq_of_toNat {c d : Char} (h : c.toNat = d.toNat) : c = d := by
  apply Char.ext
  exact UInt32.toNat.inj h

lemma asciiLower_eq_percent_iff (c : Char) : asciiLower c = '%' ↔ c = '%' := by
  unfold asciiLower
  by_cases h : 65 ≤ c.toNat ∧ c.toNat ≤ 90
  · rw [if_pos h]
    constructor
    · intro he
      exfalso
      have h1 := congrArg Char.toNat he
      rw [char_ofNat_toNat_small (c.toNat + 32) (by omega)] at h1
      have h2 : ('%' : Char).toNat = 37 := rfl
      omega
    · intro he
      exfalso
      have h1 : c.toNat = 37 := congrArg Char.toNat he
      omega
  · rw [if_neg h]

lemma asciiLower_eq_underscore_iff (c : Char) : asciiLower c = '_' ↔ c = '_' := by
  unfold asciiLower
  by_cases h : 65 ≤ c.toNat ∧ c.toNat ≤ 90
  · rw [if_pos h]
    constructor
    · intro he
      exfalso
      have h1 := congrArg Char.toNat he
      rw [char_ofNat_toNat_small (c.toNat + 32) (by omega)] at h1
      have h2 : ('_' : Char).toNat = 95 := rfl
      omega
    · intro he
      exfalso
      have h1 : c.toNat = 95 := congrArg Char.toNat he
      omega
  · rw [if_neg h]

/-- ASCII lowering preserves the absence of `LIKE` metacharacters. -/
lemma noMeta_map_asciiLower (l : List Char) (h : noMeta l = true) :
    noMeta (l.map asciiLower) = true := by
  unfold noMeta at h ⊢
  rw [List.all_map]
  rw [List.all_eq_true] at h ⊢
  intro c hc
  have hc' := h c hc
  simp only [Function.comp_apply, Bool.and_eq_true, bne_iff_ne] at hc' ⊢
  exact ⟨fun he => hc'.1 ((asciiLower_eq_percent_iff c).mp he),
    fun he => hc'.2 ((asciiLower_eq_underscore_iff c).mp he)⟩

lemma contains_iff_mem (s : List String) (a : String) : s.contains a = true ↔ a ∈ s :=
  List.elem_iff

/-- C1: the claim says every transaction-reading operation, including the
report aggregation's category breakdown, is role-scoped, so a `user`-role
actor only ever reads their own rows. The code contradicts it: for the
`user`-role actor Bob (id 2), whose organization holds a single transaction
belonging to user 1, the month-expense sum is correctly 0, yet the category
breakdown of the very same reports page reads that foreign transaction and
reports 100 cents under `Food` — the breakdown query (main.py lines
547-557) never applies the `user_id` filter that lines 527-529 of the same
handler apply to the sums. -/
theorem report_breakdown_ignores_user_scope :
    (reports_page dbReports userBob exToday).category_breakdown = [("Food", 100)] ∧
    (reports_page dbReports userBob exToday).month_expense = 0 ∧
    dbReports.transactions.all (fun t => t.user_id != userBob.id) = true := by decide

/-- C2: the claim says the export applies the same filter predicates as the
listing, in particular the amount bounds. The code contradicts it: with a
minimum-amount filter of 10.00 over transactions of 5.00 and 20.00, the
listing returns only the 20.00 row (and sums only it), while the export
emits both rows — `export_csv` (main.py lines 617-694) never reads the
`min_amount`/`max_amount` parameters. -/
theorem export_ignores_amount_bounds :
    (export_csv dbExport userAdmin pMin10).length = 2 ∧
    transactions_list dbExport userAdmin pMin10 =
      .ok { transactions := [txBig], income := 0, expense := 2000 } := by decide

/-- C4 counterexample: the claim says a min/max amount that fails to parse
is treated as an absent predicate and never as an error. But `1e40` parses
as a `Decimal` and then `quantize` raises `decimal.InvalidOperation`, which
the listing's `except ValueError` does not catch: the whole request crashes
instead of dropping the bound or applying it. -/
theorem listing_crash_on_min_amount_cex :
    transactions_list dbExport userAdmin pMinHuge = .error .uncaught ∧
    parseDec "1e40" = some (.finite false 1 40) := by decide

/-- C3 counterexample: the claim says every role other than `admin`/`user`
receives `PermissionDenied` on transaction creation. But the creation
handler only checks `role == "readonly"` (main.py line 367), so the
unrecognized role string `guest` creates and persists a row. -/
theorem unrecognized_role_creates_cex :
    userGuest.role = "guest" ∧
    ("guest" = "admin" ∨ "guest" = "user") = False ∧
    transaction_create userGuest formTen =
      .ok { org_id := 1, user_id := 7, account_id := 1, category_id := 3,
            amount_cents := 1000, type := "expense", occurred_at := ⟨2025, 6, 10⟩,
            note := some "note", tags := none } := by
  refine ⟨rfl, ?_, by decide⟩
  simp

/-- C3 (amended): `require_role` fails with `PermissionDenied` exactly when
the acting role is not in the allowed set, and transaction / budget
creation fail with `PermissionDenied` exactly when the acting role is the
string `readonly` — any other role string, recognized or not, passes the
permission check (an unrecognized role is a silent bypass, as spec section
9 itself warns). -/
theorem role_gating (u : UserRec) (s : List String) (f : TxnForm) (g : BudgetForm) (nid : ℕ) :
    (require_role u s = .error .permissionDenied ↔ u.role ∉ s) ∧
    (require_role u s = .ok () ↔ u.role ∈ s) ∧
    (transaction_create u f = .error .permissionDenied ↔ u.role = "readonly") ∧
    (budgets_create u g nid = .error .permissionDenied ↔ u.role = "readonly") := by
  refine ⟨?_, ?_, ?_, ?_⟩
  · unfold require_role
    by_cases hc : s.contains u.role = true
    · rw [if_pos hc]
      simp only [contains_iff_mem] at hc
      constructor
      · intro h; exact absurd h (by simp)
      · intro h; exact absurd hc h
    · rw [if_neg hc]
      simp only [contains_iff_mem] at hc
      constructor
      · intro _; exact hc
      · intro _; rfl
  · unfold require_role
    by_cases hc : s.contains u.role = true
    · rw [if_pos hc]
      simp only [contains_iff_mem] at hc
      constructor
      · intro _; exact hc
      · intro _; rfl
    · rw [if_neg hc]
      simp only [contains_iff_mem] at hc
      constructor
      · intro h; exact absurd h (by simp)
      · intro h; exact absurd h hc
  · unfold transaction_create
    by_cases hr : (u.role == "readonly") = true
    · rw [if_pos hr]
      simp only [beq_iff_eq] at hr
      exact ⟨fun _ => hr, fun _ => rfl⟩
    · rw [if_neg hr]
      simp only [beq_iff_eq] at hr
      constructor
      · intro h
        exfalso
        split at h
        · exact absurd h (by simp)
        · exact absurd h (by simp)
        · split at h
          · exact absurd h (by simp)
          · exact absurd h (by simp)
      · intro h; exact absurd h hr
  · unfold budgets_create
    by_cases hr : (u.role == "readonly") = true
    · rw [if_pos hr]
      simp only [beq_iff_eq] at hr
      exact ⟨fun _ => hr, fun _ => rfl⟩
    · rw [if_neg hr]
      simp only [beq_iff_eq] at hr
      constructor
      · intro h
        exfalso
        split at h
        · exact absurd h (by simp)
        · exact absurd h (by simp)
        · split at h
          · exact absurd h (by simp)
          · exact absurd h (by simp)
      · intro h; exact absurd h hr

/-- C10: every successfully created transaction carries the acting user's
organization and user id, regardless of the submitted form values. -/
theorem created_txn_owned_by_actor (u : UserRec) (f : TxnForm) (tx : Txn)
    (h : transaction_create u f = .ok tx) :
    tx.org_id = u.org_id ∧ tx.user_id = u.id := by
  unfold transaction_create at h
  split at h
  · exact absurd h (by simp)
  · split at h
    · exact absurd h (by simp)
    · exact absurd h (by simp)
    · split at h
      · exact absurd h (by simp)
      · have h2 := Except.ok.inj h
        rw [← h2]
        exact ⟨rfl, rfl⟩

/-- C10 witness: a concrete successful creation, owned by the actor. -/
theorem created_txn_owned_by_actor_witness :
    txTenRow.org_id = userAdmin.org_id ∧ txTenRow.user_id = userAdmin.id :=
  created_txn_owned_by_actor userAdmin formTen txTenRow (by decide)

/-- C8 counterexample: the claim says no stored transaction ever has
negative `amount_cents`. But the creation handler performs no sign check:
submitting the amount string `-5.00` persists a row with -500 cents. -/
theorem negative_amount_persisted_cex :
    transaction_create userAdmin formNeg = .ok txNegRow ∧ txNegRow.amount_cents < 0 := by
  decide

/-- C8 (amended): the stored `amount_cents` of a successfully created
transaction is exactly the value `parse_amount_to_cents` returns for the
submitted string — negative when the string is negative; no sign
validation is performed anywhere on the write path. -/
theorem stored_amount_is_parsed_value (u : UserRec) (f : TxnForm) (tx : Txn)
    (h : transaction_create u f = .ok tx) :
    parse_amount_to_cents f.amount = .ok tx.amount_cents := by
  unfold transaction_create at h
  split at h
  · exact absurd h (by simp)
  · split at h
    · exact absurd h (by simp)
    · exact absurd h (by simp)
    · next cents heq =>
      split at h
      · exact absurd h (by simp)
      · have h2 := Except.ok.inj h
        rw [heq, ← h2]

/-- C8 witness: the negative creation, where the stored value is the parsed
-500. -/
theorem stored_amount_is_parsed_value_witness :
    parse_amount_to_cents formNeg.amount = .ok txNegRow.amount_cents :=
  stored_amount_is_parsed_value userAdmin formNeg txNegRow (by decide)

/-- C9 counterexample: the claim says the keyword predicate holds exactly
when the keyword occurs case-insensitively as a substring of note or tags.
But the keyword is spliced unescaped into a `LIKE` pattern, so `_` matches
any single character: keyword `a_c` matches the note `abc`, which does not
contain `a_c`. -/
theorem keyword_like_wildcard_cex :
    keywordPred "a_c" txAbc = true ∧ specKeywordSub "a_c" txAbc = false := by decide

/-- C9 (amended): for keywords containing no `LIKE` metacharacter (`%` or
`_`), the keyword predicate is exactly the case-insensitive substring match
against note or tags, with null fields read as empty strings; keywords
containing `%` or `_` are interpreted as `LIKE` wildcards instead. -/
theorem keyword_substring_semantics (kw : String) (t : Txn)
    (h : noMeta kw.toList = true) :
    keywordPred kw t = specKeywordSub kw t := by
  unfold keywordPred specKeywordSub
  dsimp only
  have h2 := noMeta_map_asciiLower kw.toList h
  rw [likeMatch_substring _ _ h2, likeMatch_substring _ _ h2]

/-- C9 witness: the spec's own scenario — keyword `trip` matches a
transaction with null note and tags `TRIP`. -/
theorem keyword_substring_semantics_witness :
    keywordPred "trip" txTrip = specKeywordSub "trip" txTrip ∧
    specKeywordSub "trip" txTrip = true :=
  ⟨keyword_substring_semantics "trip" txTrip (by decide), by decide⟩

/-- C7: per-budget spend is the organization-wide sum of expense
transactions in the inclusive budget window, narrowed by category exactly
when `category_id` is non-null (ids are never 0, which the hypothesis
records, bridging the code's Python-truthiness test with the spec's
null test); the dashboard reports `remaining = amount_cents - spent` with
no clamping, negative exactly on overspend; and the summaries are identical
for any two viewers of the same organization, whatever their roles. -/
theorem budget_spend_spec (db : Db) (u : UserRec) (today : Date) (b : BudgetRec)
    (hb : b.category_id ≠ some 0) :
    computeSpent db u.org_id b =
      sumCents (db.transactions.filter (specBudgetMatch u.org_id b)) ∧
    (∀ e ∈ (dashboard db u today).budget_summaries,
      e.spent = computeSpent db u.org_id e.budget ∧
      e.remaining = e.budget.amount_cents - e.spent ∧
      (e.remaining < 0 ↔ e.budget.amount_cents < e.spent)) ∧
    (∀ v : UserRec, v.org_id = u.org_id →
      (dashboard db v today).budget_summaries = (dashboard db u today).budget_summaries) := by
  refine ⟨?_, ?_, ?_⟩
  · unfold computeSpent
    cases hc : b.category_id with
    | none =>
      have ht : pyTruthyOpt Option.none = false := rfl
      simp only [hc, ht, Bool.false_eq_true, if_false]
      congr 1
      apply List.filter_congr
      intro t _
      simp [specBudgetMatch, hc]
    | some cid =>
      have hcid : ¬ (cid = 0) := fun h => hb (by rw [hc, h])
      have ht : pyTruthyOpt (some cid) = true := by
        simp [pyTruthyOpt, hcid]
      simp only [hc, ht, if_true]
      rw [List.filter_filter]
      congr 1
      apply List.filter_congr
      intro t _
      simp only [specBudgetMatch, hc, Option.getD_some]
      rw [Bool.and_comm]
  · intro e he
    simp only [dashboard, List.mem_map] at he
    obtain ⟨b', hb', rfl⟩ := he
    refine ⟨rfl, rfl, ?_⟩
    dsimp only
    omega
  · intro v hv
    simp only [dashboard]
    rw [hv]

/-- C7 witness: a 3.00 category budget against 5.00 of spend in window
(the org-wide spend as seen by a `user`-role viewer). -/
theorem budget_spend_spec_witness :
    computeSpent dbBudget userBob.org_id budgetFood =
      sumCents (dbBudget.transactions.filter (specBudgetMatch userBob.org_id budgetFood)) :=
  (budget_spend_spec dbBudget userBob exToday budgetFood (by decide)).1

lemma dateLe_trans {x y z : Date} (h1 : dateLe x y = true) (h2 : dateLe y z = true) :
    dateLe x z = true := by
  unfold dateLe at h1 h2 ⊢
  rw [decide_eq_true_eq] at h1 h2 ⊢
  omega

lemma pairwise_insertStable (a : Txn) (l : List Txn)
    (hl : List.Pairwise (fun x y => dateLe y.occurred_at x.occurred_at = true) l) :
    List.Pairwise (fun x y => dateLe y.occurred_at x.occurred_at = true)
      (insertStable (fun x y => dateLt x.occurred_at y.occurred_at) a l) := by
  induction l with
  | nil => simp [insertStable]
  | cons b l ih =>
    rw [List.pairwise_cons] at hl
    obtain ⟨hb, hl'⟩ := hl
    unfold insertStable
    by_cases hab : dateLt a.occurred_at b.occurred_at = true
    · rw [if_pos hab]
      rw [List.pairwise_cons]
      constructor
      · intro x hx
        rw [(insertStable_perm _ a l).mem_iff, List.mem_cons] at hx
        rcases hx with rfl | hx
        · exact dateLe_of_dateLt hab
        · exact hb x hx
      · exact ih hl'
    · rw [if_neg hab]
      rw [List.pairwise_cons]
      constructor
      · intro x hx
        rcases List.mem_cons.mp hx with rfl | hx
        · exact dateLe_of_not_dateLt (Bool.eq_false_iff.mpr hab)
        · exact dateLe_trans (hb x hx) (dateLe_of_not_dateLt (Bool.eq_false_iff.mpr hab))
      · rw [List.pairwise_cons]
        exact ⟨hb, hl'⟩

/-- The date-descending sort really is sorted (descending, ties adjacent). -/
lemma sortDateDesc_sorted (l : List Txn) :
    List.Pairwise (fun x y => dateLe y.occurred_at x.occurred_at = true) (sortDateDesc l) := by
  unfold sortDateDesc
  induction l with
  | nil => simp [sortBy]
  | cons a l ih => exact pairwise_insertStable a _ ih

/-- The date-descending sort is a permutation of its input. -/
lemma sortDateDesc_perm (l : List Txn) : (sortDateDesc l).Perm l :=
  sortBy_perm _ l

lemma amountBound_ok (p : Option String) (h : amountBound p ≠ .error .uncaught) :
    amountBound p = .ok (specAmountBound p) := by
  unfold amountBound specAmountBound
  unfold amountBound at h
  cases hp : presentStr p with
  | none => rfl
  | some v =>
    rw [hp] at h
    dsimp only at h ⊢
    cases hv : parse_amount_to_cents v with
    | ok n => simp [hv, Except.toOption]
    | error e =>
      cases e with
      | invalidAmount => simp [hv, Except.toOption]
      | uncaught =>
        simp only [hv] at h
        exact absurd rfl h

lemma optFilter_all {α : Type} (o : Option α) (f : α → Txn → Bool) (t : Txn) :
    (optFilter o f).all (fun g => g t) = optPred o f t := by
  cases o <;> simp [optFilter, optPred]

lemma optFilter_eq_nil {α : Type} (o : Option α) (f : α → Txn → Bool) :
    optFilter o f = [] ↔ o = none := by
  cases o <;> simp [optFilter]

lemma listing_filter_if_eq (db : Db) (u : UserRec) (p : QueryParams) :
    (if (optFilter (parseDateParam p.start_date) (fun d t => dateLe d t.occurred_at) ++
         optFilter (parseDateParam p.end_date) (fun d t => dateLe t.occurred_at d) ++
         optFilter p.category_id (fun cid t => t.category_id == cid) ++
         optFilter p.account_id (fun aid t => t.account_id == aid) ++
         optFilter (specAmountBound p.min_amount) (fun n t => decide (n ≤ t.amount_cents)) ++
         optFilter (specAmountBound p.max_amount) (fun n t => decide (t.amount_cents ≤ n)) ++
         optFilter (presentStr p.q) (fun kw t => keywordPred kw t)).isEmpty = true
     then scopeTxns db.transactions u
     else (scopeTxns db.transactions u).filter (fun t =>
       (optFilter (parseDateParam p.start_date) (fun d t => dateLe d t.occurred_at) ++
        optFilter (parseDateParam p.end_date) (fun d t => dateLe t.occurred_at d) ++
        optFilter p.category_id (fun cid t => t.category_id == cid) ++
        optFilter p.account_id (fun aid t => t.account_id == aid) ++
        optFilter (specAmountBound p.min_amount) (fun n t => decide (n ≤ t.amount_cents)) ++
        optFilter (specAmountBound p.max_amount) (fun n t => decide (t.amount_cents ≤ n)) ++
        optFilter (presentStr p.q) (fun kw t => keywordPred kw t)).all (fun f => f t))) =
    (scopeTxns db.transactions u).filter (listingPred p) := by
  by_cases hemp : (optFilter (parseDateParam p.start_date) (fun d t => dateLe d t.occurred_at) ++
      optFilter (parseDateParam p.end_date) (fun d t => dateLe t.occurred_at d) ++
      optFilter p.category_id (fun cid t => t.category_id == cid) ++
      optFilter p.account_id (fun aid t => t.account_id == aid) ++
      optFilter (specAmountBound p.min_amount) (fun n t => decide (n ≤ t.amount_cents)) ++
      optFilter (specAmountBound p.max_amount) (fun n t => decide (t.amount_cents ≤ n)) ++
      optFilter (presentStr p.q) (fun kw t => keywordPred kw t)).isEmpty = true
  · rw [if_pos hemp]
    rw [List.isEmpty_iff] at hemp
    simp only [List.append_eq_nil, optFilter_eq_nil] at hemp
    obtain ⟨⟨⟨⟨⟨⟨h1, h2⟩, h3⟩, h4⟩, h5⟩, h6⟩, h7⟩ := hemp
    symm
    rw [List.filter_eq_self]
    intro t _
    simp [listingPred, optPred, h1, h2, h3, h4, h5, h6, h7]
  · rw [if_neg hemp]
    apply List.filter_congr
    intro t _
    simp only [List.all_append, optFilter_all, listingPred]

/-- C4 (amended): whenever neither amount parameter triggers the uncaught
`decimal` error (which `1e40` does trigger — see the counterexample), the
listing handler computes exactly the spec's algorithm: the conjunction of
the present, well-formed predicates (malformed dates and amounts that fail
to parse with `ValueError` count as absent) filters the scoped base set,
the page is the date-descending sort capped at 500 rows, and the two sums
range over the full filtered set, each 0 when nothing matches. -/
theorem transactions_list_spec (db : Db) (u : UserRec) (p : QueryParams)
    (hmin : amountBound p.min_amount ≠ .error .uncaught)
    (hmax : amountBound p.max_amount ≠ .error .uncaught) :
    transactions_list db u p = .ok (listingSpec db u p) ∧
    (listingSpec db u p).transactions =
      (sortDateDesc ((scopeTxns db.transactions u).filter (listingPred p))).take 500 ∧
    (listingSpec db u p).transactions.length ≤ 500 ∧
    List.Pairwise (fun a b => dateLe b.occurred_at a.occurred_at = true)
      (listingSpec db u p).transactions ∧
    (sortDateDesc ((scopeTxns db.transactions u).filter (listingPred p))).Perm
      ((scopeTxns db.transactions u).filter (listingPred p)) ∧
    ((scopeTxns db.transactions u).filter (listingPred p) = [] →
      (listingSpec db u p).income = 0 ∧ (listingSpec db u p).expense = 0) := by
  refine ⟨?_, ?_, ?_, ?_, ?_, ?_⟩
  · unfold transactions_list
    rw [amountBound_ok p.min_amount hmin, amountBound_ok p.max_amount hmax]
    simp only [Bind.bind, Except.bind, pure, Except.pure]
    rw [listing_filter_if_eq db u p]
    rfl
  · rfl
  · simp only [listingSpec]
    exact List.length_take_le 500 _
  · simp only [listingSpec]
    exact (sortDateDesc_sorted _).sublist (List.take_sublist 500 _)
  · exact sortDateDesc_perm _
  · intro h
    simp only [listingSpec, h]
    exact ⟨rfl, rfl⟩

/-- C4 witness: a parameter set with one malformed date (dropped), one
`ValueError` amount (dropped) and one well-formed amount bound, on which
the listing equals the spec algorithm. -/
theorem transactions_list_spec_witness :
    transactions_list dbExport userAdmin
      { start_date := some "2025-13-40", end_date := none, category_id := none,
        account_id := none, min_amount := some "abc", max_amount := some "60",
        q := none } =
      .ok (listingSpec dbExport userAdmin
        { start_date := some "2025-13-40", end_date := none, category_id := none,
          account_id := none, min_amount := some "abc", max_amount := some "60",
          q := none }) :=
  (transactions_list_spec dbExport userAdmin _ (by decide) (by decide)).1

lemma rheND_le_self (a b : ℕ) (hb : 2 ≤ b) : rheND a b ≤ a := by
  unfold rheND
  dsimp only
  have hq2 : a / b ≤ a / 2 := Nat.div_le_div_left hb (by norm_num)
  have hr : a % b ≤ a := Nat.mod_le a b
  generalize hqd : a / b = q at hq2 ⊢
  generalize hrd : a % b = r at hr ⊢
  split_ifs <;> omega

lemma rheND_strict_or_tie (a b : ℕ) (hb : 0 < b) :
    |((rheND a b : ℕ) : ℚ) - (a:ℚ) / b| < 1/2 ∨
    (|((rheND a b : ℕ) : ℚ) - (a:ℚ) / b| = 1/2 ∧ rheND a b % 2 = 0) := by
  have hbq : (0:ℚ) < b := by exact_mod_cast hb
  have hdm : b * (a / b) + a % b = a := Nat.div_add_mod a b
  have hsplit : (a:ℚ) / b = ((a / b : ℕ) : ℚ) + ((a % b : ℕ) : ℚ) / b := by
    field_simp
    calc (a:ℚ) = ((b * (a / b) + a % b : ℕ) : ℚ) := by exact_mod_cast hdm.symm
    _ = ((a / b : ℕ) : ℚ) * b + ((a % b : ℕ) : ℚ) := by push_cast; ring
  set q := a / b
  set r := a % b
  have hrq0 : (0:ℚ) ≤ (r:ℚ) / b := by positivity
  unfold rheND
  by_cases h1 : 2 * r < b
  · left
    have : ((r:ℚ)) / b < 1/2 := by
      rw [div_lt_div_iff hbq (by norm_num : (0:ℚ) < 2)]
      have := (Nat.cast_lt (α := ℚ)).mpr h1
      push_cast at this ⊢
      linarith
    simp only [h1, if_true, hsplit]
    rw [abs_lt]
    constructor <;> push_cast <;> linarith
  · by_cases h2 : b < 2 * r
    · left
      have hr1 : r < b := Nat.mod_lt _ hb
      have hrq1 : ((r:ℚ)) / b < 1 := by
        rw [div_lt_one hbq]
        exact_mod_cast hr1
      have hhalf : (1:ℚ)/2 < ((r:ℚ)) / b := by
        rw [div_lt_div_iff (by norm_num : (0:ℚ) < 2) hbq]
        have := (Nat.cast_lt (α := ℚ)).mpr h2
        push_cast at this ⊢
        linarith
      simp only [h1, h2, if_false, if_true, hsplit]
      rw [abs_lt]
      constructor <;> push_cast <;> linarith
    · right
      have heq : 2 * r = b := by omega
      have hhalf : ((r:ℚ)) / b = 1/2 := by
        have : ((2 * r : ℕ) : ℚ) = b := by exact_mod_cast congrArg (Nat.cast (R := ℚ)) heq
        push_cast at this
        field_simp
        linarith
      simp only [h1, h2, if_false, hsplit]
      by_cases h3 : q % 2 = 0
      · rw [if_pos h3]
        constructor
        · rw [abs_eq (by norm_num : (0:ℚ) ≤ 1/2)]
          right
          push_cast
          linarith
        · exact h3
      · rw [if_neg h3]
        constructor
        · rw [abs_eq (by norm_num : (0:ℚ) ≤ 1/2)]
          left
          push_cast
          linarith
        · omega

lemma ctxRound28_small (c : ℕ) (e : ℤ) (h : c < 10 ^ 28) : ctxRound28 c e = (c, e) := by
  unfold ctxRound28
  rw [if_pos ((digLen_le_iff c 28 (by norm_num)).mpr h)]

lemma quantizeToCents_ne_invalid (neg : Bool) (c : ℕ) (e : ℤ) :
    quantizeToCents neg c e ≠ .error .invalidAmount := by
  unfold quantizeToCents
  split_ifs <;> try simp
  split <;> split_ifs <;> simp

lemma signApply_cast (neg : Bool) (n : ℕ) :
    ((signApply neg n : ℤ) : ℚ) = (if neg then (-1:ℚ) else 1) * n := by
  cases neg <;> simp [signApply]

lemma even_signApply (neg : Bool) (n : ℕ) :
    Even (signApply neg n) ↔ n % 2 = 0 := by
  cases neg <;> simp [signApply, even_neg, Int.even_coe_nat, Nat.even_iff]

lemma hundred_decToRat_ofNat (neg : Bool) (c k : ℕ) :
    100 * decToRat neg c (Int.ofNat k) =
      (if neg then (-1:ℚ) else 1) * ((c * 100 * 10 ^ k : ℕ) : ℚ) := by
  unfold decToRat
  rw [Int.ofNat_eq_coe, zpow_natCast]
  cases neg <;> (push_cast; ring)

lemma hundred_decToRat_negSucc (neg : Bool) (c m : ℕ) :
    100 * decToRat neg c (Int.negSucc m) =
      (if neg then (-1:ℚ) else 1) * (((c * 100 : ℕ) : ℚ) / ((10 ^ (m + 1) : ℕ) : ℚ)) := by
  unfold decToRat
  rw [zpow_negSucc]
  have h10 : ((10 ^ (m + 1) : ℕ) : ℚ) ≠ 0 := by positivity
  cases neg <;> (push_cast at h10 ⊢; field_simp; ring)

lemma abs_sign_sub_sign (neg : Bool) (y x : ℚ) :
    |(if neg then (-1:ℚ) else 1) * y - (if neg then (-1:ℚ) else 1) * x| = |y - x| := by
  cases neg
  · simp
  · simp only [if_true]
    rw [show (-1:ℚ) * y - (-1:ℚ) * x = -(y - x) by ring, abs_neg]

/-- C5 (amended): `parse_amount_to_cents` fails with the `ValueError` the
spec calls `InvalidAmount` exactly when the string does not parse as a
`Decimal` or parses as a quiet NaN; on strings parsing to a finite decimal
whose coefficient times 100 stays within the 28-digit context, any returned
integer is the round-half-to-even value of 100 times the exact decimal
value (distance at most 1/2, ties to even), and the uncaught
`InvalidOperation` failure happens exactly when the exact cent value is an
integer of 29 or more digits; on every parse failure the write path
persists no row. (The original claim fails: see the counterexample, where
the perfectly valid numeral `1E+30` ends in the uncaught error instead of
an `InvalidAmount` failure or a result.) -/
theorem parse_amount_spec (s : String) :
    (parse_amount_to_cents s = .error .invalidAmount ↔
      (parseDec s = none ∨ parseDec s = some .nan)) ∧
    (∀ (neg : Bool) (c : ℕ) (e : ℤ), parseDec s = some (.finite neg c e) →
      c * 100 < 10 ^ 28 →
      ∀ n : ℤ, parse_amount_to_cents s = .ok n →
        |(n : ℚ) - 100 * decToRat neg c e| ≤ 1 / 2 ∧
        (|(n : ℚ) - 100 * decToRat neg c e| = 1 / 2 → Even n)) ∧
    (∀ (neg : Bool) (c : ℕ) (e : ℤ), parseDec s = some (.finite neg c e) →
      c * 100 < 10 ^ 28 →
      (parse_amount_to_cents s = .error .uncaught ↔
        (0 ≤ e ∧ 10 ^ 28 ≤ c * 100 * 10 ^ e.toNat))) ∧
    (∀ (u : UserRec) (f : TxnForm) (tx : Txn) (err : AmountError),
      parse_amount_to_cents f.amount = .error err → transaction_create u f ≠ .ok tx) := by
  refine ⟨?_, ?_, ?_, ?_⟩
  · unfold parse_amount_to_cents
    cases hp : parseDec s with
    | none => simp
    | some v =>
      cases v with
      | nan => simp
      | snan => simp
      | inf b => simp
      | finite neg c e => simp [quantizeToCents_ne_invalid]
  · intro neg c e hp hsmall n hok
    unfold parse_amount_to_cents at hok
    rw [hp] at hok
    dsimp only at hok
    rw [ctxRound28_small (c * 100) e hsmall] at hok
    dsimp only at hok
    unfold quantizeToCents at hok
    by_cases hc0 : c * 100 = 0
    · rw [if_pos hc0] at hok
      have hn : n = 0 := by
        have := Except.ok.inj hok
        omega
      have hc : c = 0 := by omega
      subst hn hc
      simp [decToRat]
    · rw [if_neg hc0] at hok
      cases e with
      | ofNat k =>
        dsimp only at hok
        by_cases hd : digLen (c * 100) + k ≤ 28
        · rw [if_pos hd] at hok
          have hn := Except.ok.inj hok
          rw [← hn, hundred_decToRat_ofNat, signApply_cast, abs_sign_sub_sign]
          simp
        · rw [if_neg hd] at hok
          exact absurd hok (by simp)
      | negSucc m =>
        dsimp only at hok
        by_cases hg : digLen (c * 100) < m + 1
        · rw [if_pos hg] at hok
          have hn : n = 0 := by
            have := Except.ok.inj hok
            omega
          subst hn
          have hm1 : 1 ≤ m := by
            have := digLen_pos (c * 100)
            omega
          have hlt : c * 100 < 10 ^ m := by
            have := (digLen_le_iff (c * 100) m (by omega)).mp (by omega)
            exact this
          have hfrac : ((c * 100 : ℕ) : ℚ) / ((10 ^ (m + 1) : ℕ) : ℚ) < 1 / 2 := by
            rw [div_lt_div_iff (by positivity) (by norm_num : (0:ℚ) < 2)]
            have h1 : ((c * 100 : ℕ) : ℚ) < ((10 ^ m : ℕ) : ℚ) := by exact_mod_cast hlt
            have h2 : ((10 ^ m : ℕ) : ℚ) * 2 ≤ ((10 ^ (m + 1) : ℕ) : ℚ) * 1 := by
              push_cast
              rw [pow_succ]
              nlinarith [pow_pos (by norm_num : (0:ℚ) < 10) m]
            nlinarith [pow_pos (by norm_num : (0:ℚ) < 10) m]
          rw [hundred_decToRat_negSucc]
          have habs : |(((0:ℤ)) : ℚ) - (if neg then (-1:ℚ) else 1) *
              (((c * 100 : ℕ) : ℚ) / ((10 ^ (m + 1) : ℕ) : ℚ))| =
              ((c * 100 : ℕ) : ℚ) / ((10 ^ (m + 1) : ℕ) : ℚ) := by
            have hnn : (0:ℚ) ≤ ((c * 100 : ℕ) : ℚ) / ((10 ^ (m + 1) : ℕ) : ℚ) := by positivity
            rw [Int.cast_zero, zero_sub, abs_neg, abs_mul]
            have hone : |(if neg then (-1:ℚ) else 1)| = 1 := by cases neg <;> simp
            rw [hone, one_mul, abs_of_nonneg hnn]
          rw [habs]
          constructor
          · linarith
          · intro h
            exact absurd h (by linarith)
        · rw [if_neg hg] at hok
          by_cases hd : digLen (rheND (c * 100) (10 ^ (m + 1))) ≤ 28
          · rw [if_pos hd] at hok
            have hn := Except.ok.inj hok
            rw [← hn, hundred_decToRat_negSucc, signApply_cast, abs_sign_sub_sign]
            have hkey := rheND_strict_or_tie (c * 100) (10 ^ (m + 1))
              (by positivity)
            have hcast : ((10 ^ (m + 1) : ℕ) : ℚ) = ((10 : ℚ)) ^ (m + 1) := by push_cast; rfl
            rcases hkey with hlt | ⟨heq, heven⟩
            · constructor
              · exact le_of_lt (by exact_mod_cast hlt)
              · intro habs
                exfalso
                rw [habs] at hlt
                exact absurd hlt (by norm_num)
            · constructor
              · exact le_of_eq heq
              · intro _
                rw [even_signApply]
                exact heven
          · rw [if_neg hd] at hok
            exact absurd hok (by simp)
  · intro neg c e hp hsmall
    unfold parse_amount_to_cents
    rw [hp]
    dsimp only
    rw [ctxRound28_small (c * 100) e hsmall]
    dsimp only
    unfold quantizeToCents
    by_cases hc0 : c * 100 = 0
    · rw [if_pos hc0]
      constructor
      · intro h; exact absurd h (by simp)
      · intro ⟨he, hge⟩
        exfalso
        have : c * 100 * 10 ^ e.toNat = 0 := by
          rw [hc0]; ring
        omega
    · rw [if_neg hc0]
      cases e with
      | ofNat k =>
        dsimp only
        have hkt : (Int.ofNat k).toNat = k := rfl
        by_cases hd : digLen (c * 100) + k ≤ 28
        · rw [if_pos hd]
          constructor
          · intro h; exact absurd h (by simp)
          · intro ⟨he, hge⟩
            rw [hkt] at hge
            have hdig : digLen (c * 100) ≤ 28 - k := by omega
            have hk28 : k ≤ 27 := by
              have := digLen_pos (c * 100)
              omega
            have hlt : c * 100 < 10 ^ (28 - k) :=
              (digLen_le_iff (c * 100) (28 - k) (by omega)).mp hdig
            have : c * 100 * 10 ^ k < 10 ^ (28 - k) * 10 ^ k :=
              (Nat.mul_lt_mul_right (pow_pos (by norm_num : (0:ℕ) < 10) k)).mpr hlt
            rw [← pow_add] at this
            have h28 : 28 - k + k = 28 := by omega
            rw [h28] at this
            omega
        · rw [if_neg hd]
          constructor
          · intro _
            refine ⟨by rw [Int.ofNat_eq_coe]; exact_mod_cast Nat.zero_le k, ?_⟩
            rw [hkt]
            by_cases hk28 : k ≥ 28
            · have hc1 : 1 ≤ c * 100 := by omega
              calc (10:ℕ) ^ 28 ≤ 10 ^ k := Nat.pow_le_pow_right (by norm_num) hk28
              _ ≤ c * 100 * 10 ^ k := Nat.le_mul_of_pos_left _ (by omega)
            · have hge : 10 ^ (28 - k) ≤ c * 100 := by
                by_contra hcon
                push_neg at hcon
                have h2 := (digLen_le_iff (c * 100) (28 - k) (by omega)).mpr hcon
                exact hd (by omega)
              calc (10:ℕ) ^ 28 = 10 ^ (28 - k) * 10 ^ k := by
                    rw [← pow_add]
                    congr 1
                    omega
              _ ≤ c * 100 * 10 ^ k := Nat.mul_le_mul_right _ hge
          · intro _; rfl
      | negSucc m =>
        dsimp only
        by_cases hg : digLen (c * 100) < m + 1
        · rw [if_pos hg]
          constructor
          · intro h; exact absurd h (by simp)
          · intro ⟨he, _⟩
            exact absurd he (by simp)
        · rw [if_neg hg]
          have hd : digLen (rheND (c * 100) (10 ^ (m + 1))) ≤ 28 := by
            apply (digLen_le_iff _ 28 (by norm_num)).mpr
            calc rheND (c * 100) (10 ^ (m + 1)) ≤ c * 100 :=
                  rheND_le_self _ _ (by
                    calc (2:ℕ) ≤ 10 ^ 1 := by norm_num
                    _ ≤ 10 ^ (m + 1) := Nat.pow_le_pow_right (by norm_num) (by omega))
            _ < 10 ^ 28 := hsmall
          rw [if_pos hd]
          constructor
          · intro h; exact absurd h (by simp)
          · intro ⟨he, _⟩
            exact absurd he (by simp)
  · intro u f tx err hperr hcontra
    unfold transaction_create at hcontra
    split at hcontra
    · exact absurd hcontra (by simp)
    · split at hcontra
      · exact absurd hcontra (by simp)
      · exact absurd hcontra (by simp)
      · next cents heq =>
        rw [hperr] at heq
        exact absurd heq (by simp)

/-- C5 counterexample: `1E+30` is a valid decimal numeral, yet
`parse_amount_to_cents` neither returns its cent value nor fails with
`InvalidAmount`: the 32-digit quantize result overflows the default
28-digit context and the `InvalidOperation` escapes uncaught. -/
theorem parse_amount_valid_numeral_fails_cex :
    parseDec "1E+30" = some (.finite false 1 30) ∧
    parse_amount_to_cents "1E+30" = .error .uncaught := by decide

/-- C5 witness: `2.345` parses, stays in precision, and its result 234 is
within half a cent of the exact value 234.5 (the even tie). -/
theorem parse_amount_spec_witness :
    |((234 : ℤ) : ℚ) - 100 * decToRat false 2345 (-3)| ≤ 1 / 2 :=
  ((parse_amount_spec "2.345").2.1 false 2345 (-3) (by decide) (by decide)
    234 (by decide)).1

lemma splitOnce_none (p : Char → Bool) :
    ∀ l : List Char, (∀ c ∈ l, p c = false) → splitOnce p l = (l, none) := by
  intro l
  induction l with
  | nil => intro _; rfl
  | cons c r ih =>
    intro h
    unfold splitOnce
    rw [if_neg (by simp [h c (by simp)])]
    rw [ih (fun d hd => h d (by simp [hd]))]

lemma splitOnce_found (p : Char → Bool) (x : Char) (l2 : List Char) (hx : p x = true) :
    ∀ l1 : List Char, (∀ c ∈ l1, p c = false) →
      splitOnce p (l1 ++ x :: l2) = (l1, some l2) := by
  intro l1
  induction l1 with
  | nil =>
    intro _
    unfold splitOnce
    simp [hx]
  | cons c r ih =>
    intro h
    rw [List.cons_append]
    unfold splitOnce
    rw [if_neg (by simp [h c (by simp)])]
    rw [ih (fun d hd => h d (by simp [hd]))]

lemma dropWhile_of_all_false (p : Char → Bool) (l : List Char)
    (h : ∀ c ∈ l, p c = false) : l.dropWhile p = l := by
  cases l with
  | nil => rfl
  | cons c r =>
    rw [List.dropWhile_cons, if_neg (by simp [h c (by simp)])]

lemma stripSpaces_id (l : List Char) (h : ∀ c ∈ l, isSpaceC c = false) :
    stripSpaces l = l := by
  unfold stripSpaces
  rw [dropWhile_of_all_false _ l h]
  rw [dropWhile_of_all_false _ l.reverse (fun c hc => h c (List.mem_reverse.mp hc))]
  exact List.reverse_reverse l

lemma filter_no_underscore (l : List Char) (h : ∀ c ∈ l, c ≠ '_') :
    l.filter (fun c => c != '_') = l :=
  List.filter_eq_self.mpr (fun c hc => by simp [h c hc])

/-- Character classification of a rendered fixed-two-decimal numeral. -/
lemma renderFixed2_chars (n : ℤ) :
    ∀ ch ∈ renderFixed2 n, ch = '-' ∨ ch = '.' ∨ isDigitC ch = true := by
  intro ch hch
  unfold renderFixed2 at hch
  rw [List.mem_append, List.mem_append] at hch
  rcases hch with (hch | hch) | hch
  · left
    rcases Decidable.em (n < 0) with hn | hn
    · rw [if_pos hn] at hch
      simpa using hch
    · rw [if_neg hn] at hch
      simp at hch
  · right; right
    exact natToDigits_all_digits _ ch hch
  · rcases List.mem_cons.mp hch with rfl | hch
    · right; left; rfl
    · right; right
      unfold pad2 at hch
      rcases Decidable.em (n.natAbs % 100 ≤ 9) with h9 | h9
      · rw [if_pos h9] at hch
        rcases List.mem_cons.mp hch with rfl | hch
        · decide
        · exact natToDigits_all_digits _ ch hch
      · rw [if_neg h9] at hch
        exact natToDigits_all_digits _ ch hch

lemma pad2_length (r : ℕ) (hr : r < 100) : (pad2 r).length = 2 := by
  unfold pad2
  rcases Decidable.em (r ≤ 9) with h9 | h9
  · rw [if_pos h9, natToDigits_single r h9]
    rfl
  · rw [if_neg h9, natToDigits_double r (by omega) (by omega)]
    rfl

lemma pad2_all_digits (r : ℕ) (hr : r < 100) : ∀ c ∈ pad2 r, isDigitC c = true := by
  intro c hc
  unfold pad2 at hc
  rcases Decidable.em (r ≤ 9) with h9 | h9
  · rw [if_pos h9] at hc
    rcases List.mem_cons.mp hc with rfl | hc
    · decide
    · exact natToDigits_all_digits _ c hc
  · rw [if_neg h9] at hc
    exact natToDigits_all_digits _ c hc

lemma digitsVal_pad2 (r : ℕ) (hr : r < 100) : digitsVal (pad2 r) = r := by
  unfold pad2
  rcases Decidable.em (r ≤ 9) with h9 | h9
  · rw [if_pos h9, digitsVal_cons]
    have h0 : digitVal '0' = 0 := rfl
    rw [h0, digitsVal_natToDigits]
    ring
  · rw [if_neg h9]
    exact digitsVal_natToDigits r

lemma digit_toNat_range (ch : Char) (h : isDigitC ch = true) :
    48 ≤ ch.toNat ∧ ch.toNat ≤ 57 := by
  unfold isDigitC at h
  rwa [decide_eq_true_eq] at h

lemma char_ne_of_toNat_ne {ch d : Char} (h : ch.toNat ≠ d.toNat) : ch ≠ d :=
  fun he => h (congrArg Char.toNat he)

lemma digit_not_special (ch : Char) (h : isDigitC ch = true) :
    ch ≠ '_' ∧ isSpaceC ch = false ∧ ch ≠ '-' ∧ ch ≠ '+' ∧ ch ≠ '.' ∧
    ((ch == 'e') || (ch == 'E')) = false ∧ (ch == '.') = false ∧
    asciiLower ch = ch ∧ ch ≠ 'i' ∧ ch ≠ 'n' ∧ ch ≠ 's' := by
  obtain ⟨h1, h2⟩ := digit_toNat_range ch h
  refine ⟨char_ne_of_toNat_ne (by have : ('_').toNat = 95 := rfl; omega),
    ?_,
    char_ne_of_toNat_ne (by have : ('-').toNat = 45 := rfl; omega),
    char_ne_of_toNat_ne (by have : ('+').toNat = 43 := rfl; omega),
    char_ne_of_toNat_ne (by have : ('.').toNat = 46 := rfl; omega),
    ?_, ?_, ?_,
    char_ne_of_toNat_ne (by have : ('i').toNat = 105 := rfl; omega),
    char_ne_of_toNat_ne (by have : ('n').toNat = 110 := rfl; omega),
    char_ne_of_toNat_ne (by have : ('s').toNat = 115 := rfl; omega)⟩
  · unfold isSpaceC
    rw [decide_eq_false_iff_not]
    omega
  · rw [Bool.or_eq_false_iff]
    constructor <;> rw [beq_eq_false_iff_ne]
    · exact char_ne_of_toNat_ne (by have : ('e').toNat = 101 := rfl; omega)
    · exact char_ne_of_toNat_ne (by have : ('E').toNat = 69 := rfl; omega)
  · rw [beq_eq_false_iff_ne]
    exact char_ne_of_toNat_ne (by have : ('.').toNat = 46 := rfl; omega)
  · unfold asciiLower
    rw [if_neg (by omega)]

lemma isNanBody_not_n (dh : Char) (l2 : List Char) (h : dh ≠ 'n') :
    isNanBody (dh :: l2) = false := by
  unfold isNanBody
  cases l2 with
  | nil => rfl
  | cons a r =>
    cases r with
    | nil => rfl
    | cons b r2 => simp [h]

lemma isSNanBody_not_s (dh : Char) (l2 : List Char) (h : dh ≠ 's') :
    isSNanBody (dh :: l2) = false := by
  unfold isSNanBody
  cases l2 with
  | nil => rfl
  | cons a r =>
    cases r with
    | nil => rfl
    | cons b r2 =>
      cases r2 with
      | nil => rfl
      | cons d r3 => simp [h]

/-- Parsing a rendered fixed-two-decimal numeral recovers sign, magnitude
and the exponent -2. -/
lemma parseDecCore_renderFixed2 (c : ℤ) :
    parseDecCore (renderFixed2 c) = some (.finite (decide (c < 0)) c.natAbs (-2)) := by
  obtain ⟨dh, dt, hd1⟩ : ∃ dh dt, natToDigits (c.natAbs / 100) = dh :: dt := by
    cases hq : natToDigits (c.natAbs / 100) with
    | nil => exact absurd hq (natToDigits_ne_nil _)
    | cons x xs => exact ⟨x, xs, rfl⟩
  have hdh : isDigitC dh = true :=
    natToDigits_all_digits _ dh (by rw [hd1]; simp)
  obtain ⟨hU, hS, hM, hP, hD, hEe, hDot, hLow, hI, hN, hSs⟩ := digit_not_special dh hdh
  have hrest : ∀ rest : List Char,
      rest = natToDigits (c.natAbs / 100) ++ '.' :: pad2 (c.natAbs % 100) →
      (parseNumeric rest = some (c.natAbs, -2) ∧
       rest.map asciiLower = dh :: (dt ++ '.' :: pad2 (c.natAbs % 100)).map asciiLower ∧
       rest = dh :: (dt ++ '.' :: pad2 (c.natAbs % 100))) := by
    intro rest hrdef
    have hshape : rest = dh :: (dt ++ '.' :: pad2 (c.natAbs % 100)) := by
      rw [hrdef, hd1]
      rfl
    have hmod : c.natAbs % 100 < 100 := Nat.mod_lt _ (by norm_num)
    refine ⟨?_, ?_, hshape⟩
    · unfold parseNumeric
      have hnoE : ∀ ch ∈ rest, ((ch == 'e') || (ch == 'E')) = false := by
        intro ch hch
        rw [hrdef] at hch
        rw [List.mem_append, List.mem_cons] at hch
        rcases hch with hch | rfl | hch
        · exact (digit_not_special ch (natToDigits_all_digits _ ch hch)).2.2.2.2.2.1
        · rfl
        · exact (digit_not_special ch (pad2_all_digits _ hmod ch hch)).2.2.2.2.2.1
      rw [splitOnce_none _ rest hnoE]
      dsimp only
      have hnoDot1 : ∀ ch ∈ natToDigits (c.natAbs / 100), (ch == '.') = false := by
        intro ch hch
        exact (digit_not_special ch (natToDigits_all_digits _ ch hch)).2.2.2.2.2.2.1
      rw [hrdef, splitOnce_found _ '.' _ (by simp) _ hnoDot1]
      dsimp only
      have hpadDigits := pad2_all_digits (c.natAbs % 100) hmod
      simp only [Option.getD_some]
      have hnoDot2 : ((pad2 (c.natAbs % 100)).any (fun ch => ch == '.')) = false := by
        rw [List.any_eq_false]
        intro ch hch
        simp [(digit_not_special ch (hpadDigits ch hch)).2.2.2.2.2.2.1]
      rw [hnoDot2]
      rw [if_neg (by simp)]
      rw [if_pos ?_]
      · have hval : digitsVal (natToDigits (c.natAbs / 100) ++ pad2 (c.natAbs % 100)) =
            c.natAbs := by
          rw [digitsVal_append, pad2_length _ hmod, digitsVal_natToDigits,
            digitsVal_pad2 _ hmod]
          have := Nat.div_add_mod c.natAbs 100
          omega
        rw [hval, pad2_length _ hmod]
        norm_num
      · refine ⟨?_, ?_, Or.inl (natToDigits_ne_nil _)⟩
        · rw [List.all_eq_true]
          exact fun ch hch => natToDigits_all_digits _ ch hch
        · rw [List.all_eq_true]
          exact fun ch hch => hpadDigits ch hch
    · rw [hshape, List.map_cons, hLow]
  by_cases hneg : c < 0
  · have hrF : renderFixed2 c = '-' ::
        (natToDigits (c.natAbs / 100) ++ '.' :: pad2 (c.natAbs % 100)) := by
      unfold renderFixed2
      rw [if_pos hneg]
      rfl
    obtain ⟨hnum, hlow, hshape⟩ := hrest _ rfl
    unfold parseDecCore
    rw [hrF]
    dsimp only
    rw [if_pos rfl]
    dsimp only
    rw [hlow]
    rw [if_neg ?infElimA]
    case infElimA =>
      rintro (h | h) <;> (rw [List.cons.injEq] at h; exact hI h.1)
    rw [isNanBody_not_n dh _ hN, isSNanBody_not_s dh _ hSs]
    rw [if_neg (by simp), if_neg (by simp)]
    rw [hnum]
    simp [hneg]
  · have hrF : renderFixed2 c =
        natToDigits (c.natAbs / 100) ++ '.' :: pad2 (c.natAbs % 100) := by
      unfold renderFixed2
      rw [if_neg hneg]
      rfl
    obtain ⟨hnum, hlow, hshape⟩ := hrest _ rfl
    unfold parseDecCore
    rw [hrF, hshape]
    dsimp only
    rw [if_neg hM, if_neg hP]
    dsimp only
    simp only [List.map_cons, hLow]
    rw [if_neg ?infElimB]
    case infElimB =>
      rintro (h | h) <;> (rw [List.cons.injEq] at h; exact hI h.1)
    rw [isNanBody_not_n dh _ hN, isSNanBody_not_s dh _ hSs]
    rw [if_neg (by simp), if_neg (by simp)]
    rw [← hshape, hnum]
    simp [hneg]

/-- A rendered fixed-two-decimal numeral survives the `Decimal` constructor
preprocessing (no underscores, no surrounding whitespace) and parses back to
its sign, cent magnitude and exponent `-2`. -/
lemma parseDec_renderFixed2 (c : ℤ) :
    parseDec (String.mk (renderFixed2 c)) = some (.finite (decide (c < 0)) c.natAbs (-2)) := by
  have hchars := renderFixed2_chars c
  have hU : ∀ ch ∈ renderFixed2 c, ch ≠ '_' := by
    intro ch hch
    rcases hchars ch hch with h | h | h
    · subst h; decide
    · subst h; decide
    · exact (digit_not_special ch h).1
  have hS : ∀ ch ∈ renderFixed2 c, isSpaceC ch = false := by
    intro ch hch
    rcases hchars ch hch with h | h | h
    · subst h; decide
    · subst h; decide
    · exact (digit_not_special ch h).2.1
  unfold parseDec
  have hl : (String.mk (renderFixed2 c)).toList = renderFixed2 c := rfl
  rw [hl, filter_no_underscore _ hU, stripSpaces_id _ hS]
  exact parseDecCore_renderFixed2 c

/-- Exactness of `parse_amount_to_cents` on parses with at most two
fractional digits and a small value: the context multiplication by 100 does
not round, and quantization recovers the exact integer number of cents. -/
lemma pa_of_parse (s : String) (neg : Bool) (co : ℕ) (e : ℤ)
    (hp : parseDec s = some (.finite neg co e)) (he : -2 ≤ e)
    (hsm : co * 10 ^ (e + 2).toNat < 10 ^ 16) :
    parse_amount_to_cents s = .ok (signApply neg (co * 10 ^ (e + 2).toNat)) := by
  unfold parse_amount_to_cents
  rw [hp]
  dsimp only
  have hco : co ≤ co * 10 ^ (e + 2).toNat :=
    Nat.le_mul_of_pos_right _ (Nat.pos_pow_of_pos _ (by norm_num))
  have hsmall : co * 100 < 10 ^ 28 := by
    have : co < 10 ^ 16 := lt_of_le_of_lt hco hsm
    calc co * 100 < 10 ^ 16 * 100 := by omega
    _ ≤ 10 ^ 28 := by norm_num
  rw [ctxRound28_small _ _ hsmall]
  unfold quantizeToCents
  dsimp only
  by_cases hc0 : co = 0
  · subst hc0
    rw [if_pos (by norm_num)]
    have : signApply neg 0 = 0 := by cases neg <;> rfl
    rw [Nat.zero_mul, this]
  · have hcne : co * 100 ≠ 0 := by omega
    rw [if_neg hcne]
    have hd1 := digLen_pos (co * 100)
    have hd3 : 3 ≤ digLen (co * 100) := by
      by_contra hcon
      push_neg at hcon
      have := (digLen_le_iff (co * 100) 2 (by norm_num)).mp (by omega)
      omega
    cases e with
    | ofNat kk =>
      dsimp only
      have htn : ((Int.ofNat kk) + 2).toNat = kk + 2 := by
        rw [Int.ofNat_eq_coe]
        omega
      rw [htn] at hsm ⊢
      have hlt : co * 100 * 10 ^ kk < 10 ^ 16 := by
        have heq : co * 10 ^ (kk + 2) = co * 100 * 10 ^ kk := by ring
        rw [heq] at hsm
        exact hsm
      have hge : 10 ^ (digLen (co * 100) - 1) ≤ co * 100 := by
        by_contra hcon
        push_neg at hcon
        have := (digLen_le_iff (co * 100) (digLen (co * 100) - 1) (by omega)).mpr hcon
        omega
      have hsum : 10 ^ (digLen (co * 100) - 1 + kk) ≤ co * 100 * 10 ^ kk := by
        rw [pow_add]
        exact Nat.mul_le_mul_right _ hge
      have hdk : digLen (co * 100) - 1 + kk < 16 := by
        by_contra hcon
        push_neg at hcon
        have := Nat.pow_le_pow_right (by norm_num : 1 ≤ 10) hcon
        omega
      rw [if_pos (by omega : digLen (co * 100) + kk ≤ 28)]
      have : co * 100 * 10 ^ kk = co * 10 ^ (kk + 2) := by ring
      rw [this]
    | negSucc m =>
      match m with
      | 0 =>
        dsimp only
        rw [if_neg (by omega : ¬ digLen (co * 100) < 0 + 1)]
        have h10 : co * 100 = (co * 10) * 10 := by ring
        have hpw : (10:ℕ) ^ (0 + 1) = 10 := by norm_num
        rw [hpw, h10, rheND_mul_self _ 10 (by norm_num)]
        have htn : ((Int.negSucc 0) + 2).toNat = 1 := by decide
        rw [htn] at hsm ⊢
        have hd28 : digLen (co * 10) ≤ 28 := by
          apply (digLen_le_iff _ 28 (by norm_num)).mpr
          calc co * 10 = co * 10 ^ 1 := by ring
          _ < 10 ^ 16 := hsm
          _ ≤ 10 ^ 28 := by norm_num
        rw [if_pos hd28]
        have : co * 10 = co * 10 ^ 1 := by ring
        rw [this]
      | 1 =>
        dsimp only
        rw [if_neg (by omega : ¬ digLen (co * 100) < 1 + 1)]
        have hpw : (10:ℕ) ^ (1 + 1) = 100 := by norm_num
        rw [hpw, rheND_mul_self _ 100 (by norm_num)]
        have htn : ((Int.negSucc 1) + 2).toNat = 0 := by decide
        rw [htn] at hsm ⊢
        have hd28 : digLen co ≤ 28 := by
          apply (digLen_le_iff _ 28 (by norm_num)).mpr
          calc co = co * 10 ^ 0 := by ring
          _ < 10 ^ 16 := hsm
          _ ≤ 10 ^ 28 := by norm_num
        rw [if_pos hd28]
        have : co = co * 10 ^ 0 := by ring
        rw [← this]
      | m + 2 =>
        exfalso
        rw [Int.negSucc_eq] at he
        omega

/-- Parsing the fixed two-decimal rendering of `c` returns `c` exactly. -/
lemma pa_renderFixed2 (c : ℤ) (h : c.natAbs < 10 ^ 16) :
    parse_amount_to_cents (String.mk (renderFixed2 c)) = .ok c := by
  have ht : c.natAbs * 10 ^ (((-2:ℤ) + 2).toNat) = c.natAbs := by norm_num
  have hp := pa_of_parse _ _ _ _ (parseDec_renderFixed2 c) (by norm_num) (by rw [ht]; exact h)
  rw [ht] at hp
  rw [hp]
  have hs : signApply (decide (c < 0)) c.natAbs = c := by
    unfold signApply
    rcases Decidable.em (c < 0) with hc | hc
    · rw [if_pos (decide_eq_true hc)]
      omega
    · rw [if_neg (by simp [hc])]
      omega
  rw [hs]

/-- For `1 <= a < 2^52`, the binary64 value of `a / 100` has a positive
scaled exponent, and re-rounding `100 * m / 2 ^ s` half-even to an integer
recovers `a` exactly: the double rounding through the float is lossless in
this range. -/
lemma floatCents_roundtrip (a : ℕ) (ha1 : 1 ≤ a) (h : a < 2 ^ 52) :
    ¬ (floatCentsMantissa a).2 ≤ 0 ∧
    rheND ((floatCentsMantissa a).1 * 100) (2 ^ (floatCentsMantissa a).2.toNat) = a := by
  obtain ⟨hlo, hhi⟩ := ilog2Frac_spec a 100 ha1 (by norm_num)
  set k := ilog2Frac a 100 with hkdef
  have h46eq : (2:ℚ) ^ (46:ℤ) = (2:ℚ) ^ (46:ℕ) := by
    rw [show ((46:ℤ)) = ((46:ℕ):ℤ) by norm_num, zpow_natCast]
  have hk45 : k ≤ 45 := by
    by_contra hcon
    push_neg at hcon
    have h46 : (2:ℚ) ^ (46:ℤ) ≤ (2:ℚ) ^ k := by
      apply zpow_le_zpow_right₀ (by norm_num : (1:ℚ) ≤ 2) (by omega)
    have haq : (a:ℚ) < ((2 ^ 52 : ℕ) : ℚ) := by exact_mod_cast h
    have h2 : (a:ℚ) / 100 < (2:ℚ) ^ (46:ℤ) := by
      rw [div_lt_iff (by norm_num : (0:ℚ) < 100), h46eq]
      calc (a:ℚ) < ((2 ^ 52 : ℕ) : ℚ) := haq
      _ ≤ (2:ℚ) ^ (46:ℕ) * 100 := by push_cast; norm_num
    have := lt_of_le_of_lt (le_trans h46 hlo) h2
    exact lt_irrefl _ this
  unfold floatCentsMantissa
  dsimp only
  rw [← hkdef]
  refine ⟨by omega, ?_⟩
  have hsneg : (-(52 - k)).toNat = 0 := by omega
  rw [hsneg, pow_zero, mul_one]
  set sN := (52 - k).toNat with hsNdef
  have hsN7 : 7 ≤ sN := by omega
  set m := rheND (a * 2 ^ sN) 100 with hmdef
  have hd := rheND_dist (a * 2 ^ sN) 100 (by norm_num)
  rw [← hmdef] at hd
  apply rheND_eq_of_close _ _ _ (Nat.pos_pow_of_pos _ (by norm_num))
  have hpow : (0:ℚ) < 2 ^ sN := by positivity
  have h128 : (128:ℚ) ≤ 2 ^ sN := by
    calc (128:ℚ) = 2 ^ (7:ℕ) := by norm_num
    _ ≤ 2 ^ sN := by
        apply pow_le_pow_right (by norm_num : (1:ℚ) ≤ 2) hsN7
  have key : ((m * 100 : ℕ) : ℚ) / ((2 ^ sN : ℕ) : ℚ) - (a:ℚ) =
      (100 / (2:ℚ) ^ sN) * ((m:ℚ) - ((a * 2 ^ sN : ℕ) : ℚ) / 100) := by
    push_cast
    field_simp
    ring
  rw [key, abs_mul, abs_of_pos (by positivity : (0:ℚ) < 100 / (2:ℚ) ^ sN)]
  have hfrac : (100:ℚ) / 2 ^ sN < 1 := by
    rw [div_lt_one hpow]
    linarith
  calc (100 / (2:ℚ) ^ sN) * |(m:ℚ) - ((a * 2 ^ sN : ℕ) : ℚ) / 100|
      ≤ (100 / (2:ℚ) ^ sN) * (1 / 2) := by
        apply mul_le_mul_of_nonneg_left hd (by positivity)
  _ < 1 * (1 / 2) := by
        apply mul_lt_mul_of_pos_right hfrac (by norm_num)
  _ = 1 / 2 := by norm_num

/-- In the lossless range, `cents_to_display` renders exactly the fixed
two-decimal string of its argument. -/
lemma cents_to_display_exact (c : ℤ) (h : c.natAbs < 2 ^ 52) :
    cents_to_display c = String.mk (renderFixed2 c) := by
  by_cases h0 : c = 0
  · subst h0
    decide
  · have ha1 : 1 ≤ c.natAbs := by omega
    obtain ⟨hspos, hrt⟩ := floatCents_roundtrip c.natAbs ha1 h
    unfold cents_to_display
    rw [if_neg h0]
    dsimp only
    rw [if_neg hspos, hrt]
    have harg : (if c < 0 then -(c.natAbs : ℤ) else (c.natAbs : ℤ)) = c := by
      rcases Decidable.em (c < 0) with hc | hc
      · rw [if_pos hc]
        omega
      · rw [if_neg hc]
        omega
    rw [harg]

lemma signApply_natAbs (neg : Bool) (n : ℕ) : (signApply neg n).natAbs = n := by
  cases neg <;> simp [signApply]

/-- C6: for every integer `c` whose magnitude stays below `2^52` cents,
`cents_to_display c` is the fixed two-decimal rendering of `c` (sign,
digits, point, two fractional digits, no grouping separators) and
`parse_amount_to_cents (cents_to_display c) = c`; and for every decimal
string that parses with at most two fractional digits and a cent value
below `2^52`, `cents_to_display` of the parsed cents is exactly the
normalized two-decimal form of the string. Outside that range the display
path goes through a binary64 float and the roundtrip fails
(`display_roundtrip_cex`), so the representable-range restriction is
essential. -/
theorem display_roundtrip_spec :
    (∀ c : ℤ, c.natAbs < 2 ^ 52 →
      cents_to_display c = String.mk (renderFixed2 c) ∧
      parse_amount_to_cents (cents_to_display c) = .ok c) ∧
    (∀ (s : String) (neg : Bool) (co : ℕ) (e : ℤ),
      parseDec s = some (.finite neg co e) → -2 ≤ e →
      co * 10 ^ (e + 2).toNat < 2 ^ 52 →
      normalizedTwoDecimalForm s =
        some (cents_to_display (signApply neg (co * 10 ^ (e + 2).toNat))) ∧
      parse_amount_to_cents s = .ok (signApply neg (co * 10 ^ (e + 2).toNat))) := by
  constructor
  · intro c hc
    have h16 : c.natAbs < 10 ^ 16 := lt_of_lt_of_le hc (by norm_num)
    refine ⟨cents_to_display_exact c hc, ?_⟩
    rw [cents_to_display_exact c hc]
    exact pa_renderFixed2 c h16
  · intro s neg co e hp he hv
    have hva : (signApply neg (co * 10 ^ (e + 2).toNat)).natAbs =
        co * 10 ^ (e + 2).toNat := signApply_natAbs _ _
    have h52 : (signApply neg (co * 10 ^ (e + 2).toNat)).natAbs < 2 ^ 52 := by
      rw [hva]
      exact hv
    have h16 : co * 10 ^ (e + 2).toNat < 10 ^ 16 := lt_of_lt_of_le hv (by norm_num)
    refine ⟨?_, pa_of_parse s neg co e hp he h16⟩
    unfold normalizedTwoDecimalForm
    rw [hp]
    dsimp only
    rw [if_pos he, cents_to_display_exact _ h52]

/-- C6 counterexample: the amount string `123456789012345678901.00` is a
valid two-decimal numeral, parses exactly to 12345678901234567890100 cents,
but `cents_to_display` of that value goes through a binary64 float and
renders `123456789012345683968.00`, so the unrestricted roundtrip claimed
by the specification fails. -/
theorem display_roundtrip_cex :
    parse_amount_to_cents "123456789012345678901.00" = .ok 12345678901234567890100 ∧
    cents_to_display 12345678901234567890100 ≠ "123456789012345678901.00" ∧
    cents_to_display 12345678901234567890100 = "123456789012345683968.00" := by
  refine ⟨by decide, by decide, by decide⟩

/-- The roundtrip theorem instantiated at 12345 cents and at the string
`123.45`. -/
theorem display_roundtrip_spec_witness :
    ((12345:ℤ).natAbs < 2 ^ 52 ∧
      cents_to_display 12345 = String.mk (renderFixed2 12345) ∧
      parse_amount_to_cents (cents_to_display 12345) = .ok 12345) ∧
    (parseDec "123.45" = some (.finite false 12345 (-2)) ∧
      normalizedTwoDecimalForm "123.45" =
        some (cents_to_display (signApply false (12345 * 10 ^ (((-2:ℤ) + 2)).toNat))) ∧
      parse_amount_to_cents "123.45" = .ok (signApply false (12345 * 10 ^ (((-2:ℤ) + 2)).toNat))) := by
  refine ⟨⟨by decide, ?_, ?_⟩, ⟨by decide, ?_, ?_⟩⟩
  · exact (display_roundtrip_spec.1 12345 (by decide)).1
  · exact (display_roundtrip_spec.1 12345 (by decide)).2
  · exact (display_roundtrip_spec.2 "123.45" false 12345 (-2) (by decide) (by decide) (by decide)).1
  · exact (display_roundtrip_spec.2 "123.45" false 12345 (-2) (by decide) (by decide) (by decide)).2

end Ledger
